import Mathlib

/-!
Verification development for the redirection-graph reconstruction program.

The Python sources are shallowly embedded:
  * `general_funcs.py` (URL canonicalizer `get_valid_url`, comparator `url_cmp`)
    together with models of the `urllib.parse` / `punycode` standard-library
    routines they call (namespace `PyUrl`);
  * `redirection_tree.py` (`Node`, `RedirectionTree` and its query methods);
  * `info_extraction.py` (`extract_target_entries`, `get_parent_info`,
    `build_redirection_tree`).

Modelling conventions:
  * Python strings are Lean `String`s (processed as `List Char`); Python ints
    are Lean `Int`; timestamps are `Int`.
  * Python `dict`s are association lists with replace-on-insert semantics; only
    lookup, membership, insert and pop are used by the source.
  * A raised exception (KeyError / AttributeError / ValueError) is an explicit
    `Except`/`Option` failure value.
  * Python object identity (`==` between `Node` objects, parent references) is
    modelled with explicit numeric node identities (`nid`), which is exactly
    what the heap of a Python run provides.
  * `while` loops over explicit stacks are given a fuel parameter; a call with
    fuel at least the relevant size bound computes exactly what the Python loop
    computes (the Python loop terminates on precisely those object graphs).
-/

/-! ## Generic list/character utilities used by the string models -/

/-- Characters `0-9a-fA-F` to their value. -/
def hexVal (c : Char) : Option Nat :=
  if '0' ≤ c ∧ c ≤ '9' then some (c.toNat - '0'.toNat)
  else if 'a' ≤ c ∧ c ≤ 'f' then some (c.toNat - 'a'.toNat + 10)
  else if 'A' ≤ c ∧ c ≤ 'F' then some (c.toNat - 'A'.toNat + 10)
  else none

/-- Uppercase hex digit of `n < 16` (used by percent-encoding). -/
def hexDigitU (n : Nat) : Char :=
  if n < 10 then Char.ofNat ('0'.toNat + n) else Char.ofNat ('A'.toNat + n - 10)

/-- Two-digit uppercase hex of a byte, as in Python's `quote`. -/
def pctByte (b : Nat) : List Char :=
  ['%', hexDigitU (b / 16 % 16), hexDigitU (b % 16)]

/-- Does `pat` occur at the head of `s`? -/
def lcStarts : List Char → List Char → Bool
  | [], _ => true
  | _ :: _, [] => false
  | p :: ps, c :: cs => p == c && lcStarts ps cs

/-- Python `sub in s` (substring containment). -/
def lcHasSub (pat : List Char) : List Char → Bool
  | [] => lcStarts pat []
  | c :: cs => lcStarts pat (c :: cs) || lcHasSub pat cs

/-- Python `c in s` for a single character. -/
def lcHasChar (c : Char) (s : List Char) : Bool := s.contains c

/-- Python `s.replace(pat, rep)`: non-overlapping, left-to-right.
`fuel` bounds the scan; `s.length` always suffices for non-empty `pat`. -/
def lcReplace (pat rep : List Char) : Nat → List Char → List Char
  | _, [] => []
  | 0, s => s
  | fuel + 1, c :: cs =>
    if lcStarts pat (c :: cs) then
      rep ++ lcReplace pat rep fuel ((c :: cs).drop pat.length)
    else
      c :: lcReplace pat rep fuel cs

/-- Python `s.split(sep, 1)` for a single-character separator: the part before
the first `sep` and the part after it, if `sep` occurs. -/
def lcSplitFirst (sep : Char) : List Char → Option (List Char × List Char)
  | [] => none
  | c :: cs =>
    if c == sep then some ([], cs)
    else (lcSplitFirst sep cs).map fun p => (c :: p.1, p.2)

/-- Python `s.split(sep)` for a multi-character separator, non-overlapping,
left to right.  `fuel ≥ s.length` always suffices. -/
def lcSplitSub (pat : List Char) : Nat → List Char → List (List Char)
  | _, [] => [[]]
  | 0, s => [s]
  | fuel + 1, c :: cs =>
    if lcStarts pat (c :: cs) then
      [] :: lcSplitSub pat fuel ((c :: cs).drop pat.length)
    else
      match lcSplitSub pat fuel cs with
      | [] => [[c]]
      | r :: rs => (c :: r) :: rs

/-- Python `s.split(sep)` for a single-character separator (full split). -/
def lcSplitAll (sep : Char) : List Char → List (List Char)
  | [] => [[]]
  | c :: cs =>
    let rest := lcSplitAll sep cs
    if c == sep then [] :: rest
    else
      match rest with
      | [] => [[c]]
      | r :: rs => (c :: r) :: rs

/-- `sep.join(parts)` for a single-character separator. -/
def lcJoin (sep : Char) : List (List Char) → List Char
  | [] => []
  | [p] => p
  | p :: ps => p ++ sep :: lcJoin sep ps

/-- ASCII lowering, the fragment of Python `str.lower()` exercised here
(the source only lowercases URLs; non-ASCII code points are left unchanged). -/
def asciiLowerChar (c : Char) : Char :=
  if 'A' ≤ c ∧ c ≤ 'Z' then Char.ofNat (c.toNat + 32) else c

def lcLower (s : List Char) : List Char := s.map asciiLowerChar

/-! ## UTF-8 encode/decode (model of CPython `str`/`bytes` codecs)

`utf8DecodeRep` decodes a byte list with `errors='replace'` (U+FFFD for each
maximal invalid subpart), as `urllib.parse.unquote` does. -/

def utf8Encode (c : Char) : List Nat :=
  let n := c.toNat
  if n < 0x80 then [n]
  else if n < 0x800 then [0xC0 + n / 64, 0x80 + n % 64]
  else if n < 0x10000 then [0xE0 + n / 4096, 0x80 + n / 64 % 64, 0x80 + n % 64]
  else [0xF0 + n / 262144, 0x80 + n / 4096 % 64, 0x80 + n / 64 % 64, 0x80 + n % 64]

/-- A UTF-8 continuation byte. -/
def isCont (b : Nat) : Bool := 0x80 ≤ b && b ≤ 0xBF

def replChar : Char := Char.ofNat 0xFFFD

def utf8DecodeRep : Nat → List Nat → List Char
  | _, [] => []
  | 0, _ => []
  | fuel + 1, b :: rest =>
    if b < 0x80 then
      Char.ofNat b :: utf8DecodeRep fuel rest
    else if 0xC2 ≤ b ∧ b ≤ 0xDF then
      match rest with
      | b2 :: rest2 =>
        if isCont b2 then Char.ofNat ((b - 0xC0) * 64 + (b2 - 0x80)) :: utf8DecodeRep fuel rest2
        else replChar :: utf8DecodeRep fuel rest
      | [] => [replChar]
    else if 0xE0 ≤ b ∧ b ≤ 0xEF then
      -- second-byte range depends on the lead byte (excludes overlongs/surrogates)
      let lo2 := if b = 0xE0 then 0xA0 else 0x80
      let hi2 := if b = 0xED then 0x9F else 0xBF
      match rest with
      | b2 :: rest2 =>
        if lo2 ≤ b2 ∧ b2 ≤ hi2 then
          match rest2 with
          | b3 :: rest3 =>
            if isCont b3 then
              Char.ofNat ((b - 0xE0) * 4096 + (b2 - 0x80) * 64 + (b3 - 0x80)) ::
                utf8DecodeRep fuel rest3
            else replChar :: utf8DecodeRep fuel rest2
          | [] => [replChar]
        else replChar :: utf8DecodeRep fuel rest
      | [] => [replChar]
    else if 0xF0 ≤ b ∧ b ≤ 0xF4 then
      let lo2 := if b = 0xF0 then 0x90 else 0x80
      let hi2 := if b = 0xF4 then 0x8F else 0xBF
      match rest with
      | b2 :: rest2 =>
        if lo2 ≤ b2 ∧ b2 ≤ hi2 then
          match rest2 with
          | b3 :: rest3 =>
            if isCont b3 then
              match rest3 with
              | b4 :: rest4 =>
                if isCont b4 then
                  Char.ofNat ((b - 0xF0) * 262144 + (b2 - 0x80) * 4096 +
                      (b3 - 0x80) * 64 + (b4 - 0x80)) :: utf8DecodeRep fuel rest4
                else replChar :: utf8DecodeRep fuel rest3
              | [] => [replChar]
            else replChar :: utf8DecodeRep fuel rest2
          | [] => [replChar]
        else replChar :: utf8DecodeRep fuel rest
      | [] => [replChar]
    else replChar :: utf8DecodeRep fuel rest

namespace PyUrl

/-! ## `urllib.parse.unquote` (encoding='utf-8', errors='replace', the defaults
used by the source) -/

/-- Collect the maximal run of `%XX` escapes at the head, as bytes. -/
def pctRun : Nat → List Char → List Nat × List Char
  | _, [] => ([], [])
  | 0, s => ([], s)
  | fuel + 1, s =>
    match s with
    | '%' :: h1 :: h2 :: rest =>
      match hexVal h1, hexVal h2 with
      | some v1, some v2 =>
        let p := pctRun fuel rest
        ((v1 * 16 + v2) :: p.1, p.2)
      | _, _ => ([], s)
    | _ => ([], s)

def unquoteAux : Nat → List Char → List Char
  | _, [] => []
  | 0, s => s
  | fuel + 1, c :: cs =>
    if c = '%' then
      match pctRun (c :: cs).length (c :: cs) with
      | ([], _) => c :: unquoteAux fuel cs
      | (bs, rest) => utf8DecodeRep bs.length bs ++ unquoteAux fuel rest
    else c :: unquoteAux fuel cs

/-- Model of `urllib.parse.unquote` on `str` input: maximal runs of valid
percent-escapes are decoded as UTF-8 with replacement; a `%` not followed by
two hex digits is literal. -/
def unquote (s : String) : String :=
  String.mk (unquoteAux s.data.length s.data)

/-! ## `urllib.parse.quote` -/

/-- Python's `_ALWAYS_SAFE`: ASCII alphanumerics and `_.-~`. -/
def alwaysSafe (c : Char) : Bool :=
  ('A' ≤ c && c ≤ 'Z') || ('a' ≤ c && c ≤ 'z') || ('0' ≤ c && c ≤ '9') ||
    c == '_' || c == '.' || c == '-' || c == '~'

/-- Model of `urllib.parse.quote(s, safe)` with the default UTF-8 encoding:
keep always-safe characters and ASCII characters listed in `safe`; percent-
encode the UTF-8 bytes of everything else, uppercase hex. -/
def quote (safe : List Char) (s : String) : String :=
  String.mk <| s.data.flatMap fun c =>
    if alwaysSafe c || (decide (c.toNat < 128) && safe.contains c) then [c]
    else (utf8Encode c).flatMap pctByte

/-! ## `urllib.parse.urlparse` -/

structure UrlParts where
  scheme : String
  netloc : String
  path : String
  params : String
  query : String
  fragment : String
deriving DecidableEq, Repr

def isSchemeChar (c : Char) : Bool :=
  ('A' ≤ c && c ≤ 'Z') || ('a' ≤ c && c ≤ 'z') || ('0' ≤ c && c ≤ '9') ||
    c == '+' || c == '-' || c == '.'

def isAsciiAlpha (c : Char) : Bool :=
  ('A' ≤ c && c ≤ 'Z') || ('a' ≤ c && c ≤ 'z')

/-- Leading C0-control/space stripping done by CPython's `urlsplit`. -/
def lstripControl : List Char → List Char
  | [] => []
  | c :: cs => if c.toNat ≤ 0x20 then lstripControl cs else c :: cs

/-- Take characters until one of `stops` is met; returns (taken, remainder
including the stop character). -/
def lcSpanUntil (stops : List Char) : List Char → List Char × List Char
  | [] => ([], [])
  | c :: cs =>
    if stops.contains c then ([], c :: cs)
    else
      let p := lcSpanUntil stops cs
      (c :: p.1, p.2)

/-- Scheme extraction of CPython `urlsplit`: a `:` at position > 0, first
character an ASCII letter, all characters before the colon in the scheme
alphabet.  Returns (lowercased scheme, rest) or none. -/
def splitScheme (s : List Char) : Option (List Char × List Char) :=
  match lcSplitFirst ':' s with
  | none => none
  | some (before, after) =>
    match before with
    | [] => none
    | c0 :: _ =>
      if isAsciiAlpha c0 && before.all isSchemeChar then
        some (lcLower before, after)
      else none

/-- `_splitparams`: split the params from the path — the first `;` occurring
after the last `/` (or anywhere, if the path has no `/`). -/
def splitParams (path : List Char) : List Char × List Char :=
  if lcHasChar '/' path then
    -- split at the last '/', look for ';' in the final segment
    let segs := lcSplitAll '/' path
    match segs.getLast? with
    | none => (path, [])
    | some lastSeg =>
      if lcHasChar ';' lastSeg then
        match lcSplitFirst ';' lastSeg with
        | none => (path, [])
        | some (a, b) => (lcJoin '/' (segs.dropLast ++ [a]), b)
      else (path, [])
  else
    match lcSplitFirst ';' path with
    | none => (path, [])
    | some (a, b) => (a, b)

/-- Model of `urllib.parse.urlparse` (allow_fragments=True): tab/CR/LF are
removed, leading C0-control/space stripped, scheme lowercased; raises
`ValueError` (the `.error` case) on an unbalanced-bracket netloc.
(The NFKC-normalization netloc check of CPython, which can only fire on exotic
non-ASCII netlocs, is not modelled.) -/
def urlparse (s : String) : Except String UrlParts :=
  let u0 := s.data.filter fun c => !(c == '\t' || c == '\r' || c == '\n')
  let u1 := lstripControl u0
  let (scheme, rest) :=
    match splitScheme u1 with
    | some (sc, r) => (sc, r)
    | none => (([] : List Char), u1)
  let (netloc, rest2) :=
    if lcStarts ['/', '/'] rest then
      lcSpanUntil ['/', '?', '#'] (rest.drop 2)
    else (([] : List Char), rest)
  if (lcHasChar '[' netloc && !lcHasChar ']' netloc) ||
      (lcHasChar ']' netloc && !lcHasChar '[' netloc) then
    .error "Invalid IPv6 URL"
  else
    let (rest3, fragment) :=
      match lcSplitFirst '#' rest2 with
      | some (a, b) => (a, b)
      | none => (rest2, [])
    let (pathq, query) :=
      match lcSplitFirst '?' rest3 with
      | some (a, b) => (a, b)
      | none => (rest3, [])
    let (path, params) :=
      if lcHasChar ';' pathq then splitParams pathq else (pathq, [])
    .ok { scheme := String.mk scheme, netloc := String.mk netloc,
          path := String.mk path, params := String.mk params,
          query := String.mk query, fragment := String.mk fragment }

/-! ## `urllib.parse.urljoin` (CPython algorithm; http/https are in both
`uses_relative` and `uses_netloc`) -/

def urlunsplit (scheme netloc url query fragment : List Char) : List Char :=
  let url :=
    if netloc ≠ [] || lcStarts ['/', '/'] url then
      let url := if url ≠ [] && !lcStarts ['/'] url then '/' :: url else url
      '/' :: '/' :: (netloc ++ url)
    else url
  let url := if scheme ≠ [] then scheme ++ ':' :: url else url
  let url := if query ≠ [] then url ++ '?' :: query else url
  if fragment ≠ [] then url ++ '#' :: fragment else url

def urlunparse (scheme netloc url params query fragment : List Char) : List Char :=
  let url := if params ≠ [] then url ++ ';' :: params else url
  urlunsplit scheme netloc url query fragment

/-- Remove-dot-segments loop of CPython `urljoin`. -/
def resolveSegs : List (List Char) → List (List Char) → List (List Char)
  | acc, [] => acc
  | acc, seg :: rest =>
    if seg = ['.', '.'] then resolveSegs acc.dropLast rest
    else if seg = ['.'] then resolveSegs acc rest
    else resolveSegs (acc ++ [seg]) rest

/-- Keep the first and last elements, drop empty strings in between
(`segments[1:-1] = filter(None, segments[1:-1])`). -/
def filterMiddle (l : List (List Char)) : List (List Char) :=
  match l with
  | [] => []
  | [a] => [a]
  | a :: rest =>
    match rest.getLast? with
    | none => [a]
    | some z => a :: ((rest.dropLast).filter fun seg => seg ≠ []) ++ [z]

/-- Model of `urllib.parse.urljoin(base, url)` for http(s)-scheme bases, the
only use in this program (`get_valid_url` joins its own partially built
canonical URL against a `..`-prefixed relative path).  CPython's `urljoin`
re-parses both arguments, and that parse raises `ValueError` ("Invalid IPv6
URL") on a netloc with an unbalanced bracket; the `.error` case propagates
that exception (base parsed first, as in CPython). -/
def urljoin (base url : String) : Except String String :=
  if base = "" then .ok url
  else if url = "" then .ok base
  else
    match urlparse base, urlparse url with
    | .error e, _ => .error e
    | _, .error e => .error e
    | .ok b, .ok r =>
      let scheme := if r.scheme = "" then b.scheme.data else r.scheme.data
      if String.mk scheme ≠ b.scheme ∨
          ¬ (String.mk scheme = "http" ∨ String.mk scheme = "https") then .ok url
      else
        let netloc := if r.netloc ≠ "" then r.netloc.data else b.netloc.data
        if r.netloc ≠ "" then
          .ok (String.mk (urlunparse scheme netloc r.path.data r.params.data
            r.query.data r.fragment.data))
        else if r.path = "" ∧ r.params = "" then
          let query := if r.query = "" then b.query.data else r.query.data
          .ok (String.mk (urlunparse scheme netloc b.path.data b.params.data
            query r.fragment.data))
        else
          let segments :=
            if lcStarts ['/'] r.path.data then lcSplitAll '/' r.path.data
            else
              let baseParts := lcSplitAll '/' b.path.data
              let baseParts :=
                match baseParts.getLast? with
                | some z => if z ≠ [] then baseParts.dropLast else baseParts
                | none => baseParts
              filterMiddle (baseParts ++ lcSplitAll '/' r.path.data)
          let resolved := resolveSegs [] segments
          let resolved :=
            match segments.getLast? with
            | some z => if z = ['.'] ∨ z = ['.', '.'] then resolved ++ [[]] else resolved
            | none => resolved
          let path' := lcJoin '/' resolved
          let path' := if path' = [] then ['/'] else path'
          .ok (String.mk (urlunparse scheme netloc path' r.params.data
            r.query.data r.fragment.data))

/-! ## The `punycode` codec (CPython `encodings/punycode.py`), used by
`get_valid_url` via `label.encode('punycode')`.  The `while` loops carry
fuel; the bounds passed below are sufficient for every input this program
feeds the codec. -/

def punyDigits : List Char := "abcdefghijklmnopqrstuvwxyz0123456789".data

/-- `segregate`: the basic (ASCII) code points, in order, and the sorted set
of extended code points. -/
def segregate (s : List Char) : List Char × List Nat :=
  (s.filter fun c => c.toNat < 128,
   ((s.filter fun c => ¬ c.toNat < 128).map Char.toNat).dedup.mergeSort (· ≤ ·))

def selectiveLen (s : List Char) (m : Nat) : Nat :=
  (s.filter fun c => c.toNat < m).length

/-- `selective_find(str, char, index, pos)`. -/
def selectiveFind (s : List Char) (ch : Nat) : Nat → Int → Int → Int × Int
  | 0, _, _ => (-1, -1)
  | fuel + 1, index, pos =>
    let pos := pos + 1
    if pos = s.length then (-1, -1)
    else
      match s.get? pos.toNat with
      | none => (-1, -1)
      | some c =>
        if c.toNat = ch then (index + 1, pos)
        else if c.toNat < ch then selectiveFind s ch fuel (index + 1) pos
        else selectiveFind s ch fuel index pos

/-- Inner `while 1` of `insertion_unsort` for one extended code point. -/
def unsortOne (s : List Char) (ch : Nat) :
    Nat → Int → Int → Int → List Int × Int → List Int × Int
  | 0, _, _, _, acc => acc
  | fuel + 1, index, pos, delta, (result, oldindex) =>
    match selectiveFind s ch (s.length + 1) index pos with
    | (-1, _) => (result, oldindex)
    | (index', pos') =>
      let delta := delta + index' - oldindex
      unsortOne s ch fuel index' pos' 0 (result ++ [delta - 1], index')

def insertionUnsort (s : List Char) (extended : List Nat) : List Int :=
  let step := fun (acc : List Int × Int × Int) (ch : Nat) =>
    let (result, oldindex, oldchar) := acc
    let curlen := selectiveLen s ch
    let delta : Int := (curlen + 1) * ((ch : Int) - oldchar)
    let (result', oldindex') :=
      unsortOne s ch (s.length + 1) (-1) (-1) delta (result, oldindex)
    (result', oldindex', (ch : Int))
  (extended.foldl step ([], -1, 0x80)).1

def punyT (j : Nat) (bias : Nat) : Nat :=
  let res : Int := 36 * ((j : Int) + 1) - bias
  if res < 1 then 1 else if res > 26 then 26 else res.toNat

def generalizedInt (bias : Nat) : Nat → Nat → Nat → List Char
  | 0, _, _ => []
  | fuel + 1, n, j =>
    let t := punyT j bias
    if n < t then [punyDigits.getD n '?']
    else punyDigits.getD (t + (n - t) % (36 - t)) '?' ::
      generalizedInt bias fuel ((n - t) / (36 - t)) (j + 1)

def punyAdaptShift : Nat → Nat → Nat × Nat
  | 0, delta => (delta, 0)
  | fuel + 1, delta =>
    if delta > 455 then
      let p := punyAdaptShift fuel (delta / 35)
      (p.1, p.2 + 36)
    else (delta, 0)

def punyAdapt (delta : Nat) (first : Bool) (numchars : Nat) : Nat :=
  let delta := if first then delta / 700 else delta / 2
  let delta := delta + delta / numchars
  let (delta, divisions) := punyAdaptShift (delta + 1) delta
  divisions + 36 * delta / (delta + 38)

def generateIntegers (baselen : Nat) (deltas : List Int) : List Char :=
  let step := fun (acc : List Char × Nat × Nat) (delta : Int) =>
    let (result, bias, points) := acc
    let d := delta.toNat
    let s := generalizedInt bias (d + 36) d 0
    (result ++ s, punyAdapt d (points = 0) (baselen + points + 1), points + 1)
  (deltas.foldl step ([], 72, 0)).1

/-- `punycode_encode` of CPython. -/
def punycode_encode (s : List Char) : List Char :=
  let (base, extended) := segregate s
  let deltas := insertionUnsort s extended
  let ext := generateIntegers base.length deltas
  if base ≠ [] then base ++ '-' :: ext else ext

end PyUrl

/-! ## `general_funcs.py` -/

/-- `url_cmp` (general_funcs.py:139-148): compare two URLs after percent-
decoding and lowercasing. -/
def url_cmp (url_1 url_2 : String) : Bool :=
  String.mk (lcLower (PyUrl.unquote url_1).data) ==
    String.mk (lcLower (PyUrl.unquote url_2).data)

/-- Safe-character set of `quote(path, ...)` in `get_valid_url` (line 109). -/
def safePath : List Char := "!@$%&*()-_+=/[]:',.~".data

/-- Safe-character set for the params field (line 123). -/
def safeParams : List Char := "!@$%&*()-_=+/[]:',.~".data

/-- Safe-character set for the query and fragment fields (lines 128/133); the
Python literal `"...{}\|;:..."` contains a literal backslash and pipe. -/
def safeQuery : List Char := "!@$%^&*()-_=+/?[]\x7b\x7d\\|;:,.~`".data

/-- Lines 47-50 of `get_valid_url`: repair backslashes, decode the `&` HTML
entity.  (The rest of the function parses this repaired string.) -/
def repairedUrl (original_url : String) : String :=
  let u1 := lcReplace ['\\'] ['/'] original_url.data.length original_url.data
  String.mk (lcReplace "&amp;".data ['&'] u1.length u1)

/-- Lines 102-119 of `get_valid_url`: build the path part onto `base`
(`scheme + '://' + netloc`).  The `'/./'` test is on the *unquoted*
`url_parts.path` (line 110) while the `'/../'` test is on the quoted path
(line 112).  The `'/../'` branch calls `urljoin` once per `..`-piece
(line 117) with no try/except around it, so its `ValueError` propagates
(`.error`). -/
def pathPart (base : List Char) (path : String) : Except String (List Char) :=
  if path = "" then .ok (base ++ ['/'])
  else
    let qpath := (PyUrl.quote safePath path).data
    if lcHasSub "/./".data path.data then
      .ok (base ++ lcReplace "./".data [] qpath.length qpath)
    else if lcHasSub "/../".data qpath then
      match lcSplitSub "..".data qpath.length qpath with
      | [] => .ok base
      | p0 :: restPieces =>
        restPieces.foldl
          (fun acc sub =>
            match acc with
            | .error e => .error e
            | .ok a =>
              match PyUrl.urljoin (String.mk a)
                  (String.mk ('.' :: '.' :: sub)) with
              | .error e => .error e
              | .ok v => .ok v.data)
          (.ok (base ++ p0))
    else .ok (base ++ qpath)

/-- `get_valid_url` (general_funcs.py:15-136).  `.error ()` models an
uncaught exception: either `urlparse`'s ValueError on the input itself, or
the ValueError raised inside `urljoin` in the `'/../'` branch (reachable
when the unquoted netloc holds an unbalanced bracket); `.ok none` models
`return None`; `.ok (some v)` a returned canonical URL. -/
def get_valid_url (original_url : String) : Except Unit (Option String) :=
  -- lines 47-50: repair backslashes, decode the & entity
  let u2 := (repairedUrl original_url).data
  -- lines 52-65: record which of fragment/query/params were present
  let tempAndFrag :=
    match lcSplitFirst '#' u2 with
    | some (a, _) => (a, true)
    | none => (u2, false)
  let has_fragment := tempAndFrag.2
  let tempAndQuery :=
    match lcSplitFirst '?' tempAndFrag.1 with
    | some (a, _) => (a, true)
    | none => (tempAndFrag.1, false)
  let has_query := tempAndQuery.2
  let has_params := lcHasChar ';' tempAndQuery.1
  -- lines 67-74: parse
  match PyUrl.urlparse (repairedUrl original_url) with
  | .error _ => .error ()
  | .ok parts =>
    -- lines 76-78: filter non-web URLs
    if ¬ (parts.scheme = "http" ∨ parts.scheme = "https") ∨ parts.netloc = "" then
      .ok none
    else
      -- lines 80-85: strip an explicit default port
      let default_port := if parts.scheme = "http" then "80".data else "443".data
      let netloc0 := parts.netloc.data
      let netloc1 :=
        if lcHasChar ':' netloc0 then
          match lcSplitAll ':' netloc0 with
          | a :: b :: _ => if b = default_port then a else netloc0
          | _ => netloc0
        else netloc0
      -- line 88: percent-decode the netloc
      let netloc2 := (PyUrl.unquote (String.mk netloc1)).data
      -- lines 90-100: punycode labels containing a code point above 'z'
      let labels := lcSplitAll '.' netloc2
      let labels := labels.map fun label =>
        if label.all fun c => c.toNat ≤ 122 then label
        else "xn--".data ++ PyUrl.punycode_encode label
      let netloc3 := lcJoin '.' labels
      -- lines 102-119: path (an uncaught ValueError from urljoin propagates)
      let base := parts.scheme.data ++ "://".data ++ netloc3
      match pathPart base parts.path with
      | .error _ => .error ()
      | .ok final1 =>
        -- lines 121-134: params, query, fragment
        let final2 :=
          if has_params then final1 ++ ';' :: (PyUrl.quote safeParams parts.params).data
          else final1
        let final3 :=
          if has_query then final2 ++ '?' :: (PyUrl.quote safeQuery parts.query).data
          else final2
        let final4 :=
          if has_fragment then final3 ++ '#' :: (PyUrl.quote safeQuery parts.fragment).data
          else final3
        .ok (some (String.mk final4))

/-! ## `redirection_tree.py`: node objects and trees

A run of the Python program manipulates a heap of `Node` objects linked by
`parent` references and `children_list` entries.  Two views of that heap are
used below:

  * `BNode`/`Heap`: the flat object store (node identity = list index), used to
    embed `Node.__init__`, `RedirectionTree.add_node` and
    `build_redirection_tree` — the code that creates and mutates nodes;
  * `RTree`/`NData`: the tree view of a fully built heap (children inline,
    parent links and identities kept as data), used to embed the read-only
    query methods.  `nid` is the node's object identity; Python `==` between
    nodes (object identity) is `nid` equality. -/

structure NData where
  nid : Nat
  url : String
  url_fragment : String
  parent : Option Nat
  parent_source : String
  resource_type : String
  label : Int
  timestamp : Int
  depth : Nat
deriving DecidableEq, Repr

inductive RTree where
  | mk (data : NData) (children : List RTree)
deriving Repr

def RTree.data : RTree → NData
  | .mk d _ => d

def RTree.children : RTree → List RTree
  | .mk _ cs => cs

mutual
def RTree.size : RTree → Nat
  | .mk _ cs => 1 + sizeL cs

def sizeL : List RTree → Nat
  | [] => 0
  | t :: ts => RTree.size t + sizeL ts
end

mutual
/-- All node data of a tree, root first, children in list order. -/
def allNodes : RTree → List NData
  | .mk d cs => d :: allNodesL cs

def allNodesL : List RTree → List NData
  | [] => []
  | t :: ts => allNodes t ++ allNodesL ts
end

mutual
/-- The order in which the stack loop of `get_initiator_node` visits nodes:
children are pushed in list order and popped from the top, so the **last**
child's subtree is visited first. -/
def pyorderI : RTree → List NData
  | .mk d cs => d :: pyorderIL cs

def pyorderIL : List RTree → List NData
  | [] => []
  | t :: ts => pyorderIL ts ++ pyorderI t
end

/-- Dereference a node identity inside the tree (a Python parent pointer). -/
def findN (t : RTree) (n : Nat) : Option NData :=
  (allNodes t).find? fun d => d.nid == n

/-- The candidate-collection stack loop of `get_initiator_node`
(redirection_tree.py:337-346): DFS with children pushed in list order,
collecting nodes whose URL matches (fragment ignored) with timestamp ≤ the
due time.  One fuel unit per pop; fuel `sizeL stack` always completes. -/
def initCollect (initiator_url : String) (due : Int) :
    Nat → List RTree → List NData → List NData
  | _, [], acc => acc
  | 0, _, acc => acc
  | fuel + 1, RTree.mk d cs :: rest, acc =>
    initCollect initiator_url due fuel (cs.reverse ++ rest)
      (acc ++ if url_cmp initiator_url d.url && d.timestamp ≤ due then [d] else [])

/-- The selection loop of `get_initiator_node` (redirection_tree.py:348-358):
fold over the remaining candidates, replacing the current best by any strictly
closer candidate unless that candidate *is* the base node (object identity). -/
def initSelect (due : Int) (baseNid : Nat) : NData → List NData → NData
  | cur, [] => cur
  | cur, c :: cs =>
    if due - c.timestamp < due - cur.timestamp then
      if c.nid == baseNid then initSelect due baseNid cur cs
      else initSelect due baseNid c cs
    else initSelect due baseNid cur cs

/-- `RedirectionTree.get_initiator_node` (redirection_tree.py:321-360). -/
def get_initiator_node (t : RTree) (initiator_url : String) (base : NData) :
    Option NData :=
  let due := base.timestamp
  match initCollect initiator_url due (RTree.size t) [t] [] with
  | [] => none
  | c0 :: rest => some (initSelect due base.nid c0 rest)

/-- A Python argument of `get_intermediaries`: `None`, a `Node`, or a `str`.
`falsy` is Python truthiness (`None` and `''` are falsy; nodes are truthy). -/
inductive PyArg where
  | pnone
  | pnode (d : NData)
  | pstr (s : String)
deriving DecidableEq, Repr

def PyArg.falsy : PyArg → Bool
  | .pnone => true
  | .pstr s => s == ""
  | .pnode _ => false

/-- The search stack loop of `get_intermediaries`
(redirection_tree.py:283-297): resolves string arguments to nodes.  Children
are pushed reversed, so the **first** child's subtree is visited first; the
loop breaks only when both nodes are still unresolved after a step.  Fuel
exhaustion returns the current state, which coincides with the Python result
whenever fuel ≥ the number of performed pops (`sizeL stack` suffices). -/
def interSearch (su eu : String) :
    Nat → List RTree → Option NData → Option NData → Option NData × Option NData
  | _, [], sn, en => (sn, en)
  | 0, _, sn, en => (sn, en)
  | fuel + 1, RTree.mk d cs :: rest, sn, en =>
    let cur_url := String.mk (lcLower (d.url ++ d.url_fragment).data)
    let p :=
      if sn.isNone && cur_url == su then (some d, en)
      else if en.isNone && cur_url == eu then (sn, some d)
      else (sn, en)
    if p.1.isNone && p.2.isNone then p
    else interSearch su eu fuel (cs ++ rest) p.1 p.2

/-- The backtracking loop of `get_intermediaries`
(redirection_tree.py:306-315): walk parent references from the end node,
collecting nodes, until the start node (object identity) or `None` is met.
The boolean is true iff the loop ended via `break` (start node found). -/
def backtrack (t : RTree) (startNid : Nat) :
    Nat → Option NData → List NData × Bool
  | _, none => ([], false)
  | 0, some _ => ([], false)
  | fuel + 1, some cur =>
    if cur.nid == startNid then ([cur], true)
    else
      let p := backtrack t startNid fuel (cur.parent.bind (findN t))
      (cur :: p.1, p.2)

/-- `RedirectionTree.get_intermediaries` (redirection_tree.py:251-319). -/
def get_intermediaries (t : RTree) (start e : PyArg) : List NData :=
  if start.falsy && e.falsy then []
  else if e.falsy then []
  else
    let start := if start.falsy then PyArg.pnode t.data else start
    let (start_node, start_url) :=
      match start with
      | .pnode d => (some d, String.mk (lcLower (d.url ++ d.url_fragment).data))
      | .pstr s => ((none : Option NData), String.mk (lcLower s.data))
      | .pnone => ((none : Option NData), "")
    let (end_node, end_url) :=
      match e with
      | .pnode d => (some d, String.mk (lcLower (d.url ++ d.url_fragment).data))
      | .pstr s => ((none : Option NData), String.mk (lcLower s.data))
      | .pnone => ((none : Option NData), "")
    let (sn, en) := interSearch start_url end_url (RTree.size t) [t] start_node end_node
    match sn, en with
    | some s, some en' =>
      let p := backtrack t s.nid (RTree.size t + 1) (some en')
      if p.2 then p.1.reverse else []
    | _, _ => []

/-- Well-formedness of a tree view: the data recorded in each node agrees with
the tree structure.  This is exactly the invariant the Tree Builder
establishes (see `build_redirection_tree_invariant`): distinct object
identities, the root has no parent and depth 1, and every child records its
parent's identity and depth + 1. -/
def wfChildren (p : NData) (cs : List RTree) : Bool :=
  cs.all fun c => c.data.parent == some p.nid && c.data.depth == p.depth + 1

mutual
def wfAux : RTree → Bool
  | .mk d cs => wfChildren d cs && wfAuxL cs

def wfAuxL : List RTree → Bool
  | [] => true
  | t :: ts => wfAux t && wfAuxL ts
end

def treeWF (t : RTree) : Bool :=
  t.data.parent == none && t.data.depth == 1 &&
    ((allNodes t).map NData.nid).Nodup && wfAux t

/-! ## The flat object store: `Node.__init__`, `add_node`,
`build_redirection_tree` -/

structure BNode where
  url : String
  url_fragment : String
  parent : Option Nat
  parent_source : String
  resource_type : String
  label : Int
  timestamp : Int
  depth : Nat
  children_list : List Nat
deriving DecidableEq, Repr

abbrev Heap := List BNode

/-- `Node.__init__` (redirection_tree.py:14-39): allocate a node.  The depth
is `parent.depth + 1` for a child and 1 for a root.  Returns the extended heap
and the new node's identity; `none` models the error a dangling parent
identity would be (unrepresentable in Python, where `parent` is either `None`
or an existing object). -/
def newNode (heap : Heap) (url url_fragment : String) (parent : Option Nat)
    (parent_source : String) (resource_type : String) (label timestamp : Int) :
    Option (Heap × Nat) :=
  match parent with
  | none =>
    some (heap ++ [⟨url, url_fragment, none, parent_source, resource_type,
      label, timestamp, 1, []⟩], heap.length)
  | some p =>
    match heap.get? p with
    | none => none
    | some pb =>
      some (heap ++ [⟨url, url_fragment, some p, parent_source, resource_type,
        label, timestamp, pb.depth + 1, []⟩], heap.length)

/-- A `RedirectionTree` object: the heap it lives in plus its root's identity. -/
structure TreeState where
  heap : Heap
  root : Nat
deriving DecidableEq, Repr

/-- A Python value passed to `add_node`: a `Node` reference or anything else. -/
inductive PyObj where
  | nodeRef (nid : Nat)
  | notNode
deriving DecidableEq, Repr

def PyObj.isNode : PyObj → Bool
  | .nodeRef _ => true
  | .notNode => false

/-- `RedirectionTree.add_node` (redirection_tree.py:50-65): non-`Node`
arguments return immediately; otherwise the node is appended to its parent's
`children_list`.  `none` models the AttributeError raised when the node's
parent is `None` (or a dangling reference, unrepresentable in Python). -/
def add_node (ts : TreeState) (v : PyObj) : Option TreeState :=
  match v with
  | .notNode => some ts
  | .nodeRef nid =>
    match ts.heap.get? nid with
    | none => none
    | some b =>
      match b.parent with
      | none => none
      | some p =>
        match ts.heap.get? p with
        | none => none
        | some pb =>
          some ⟨ts.heap.set p { pb with children_list := pb.children_list ++ [nid] },
            ts.root⟩

/-- A causal-link record, the resolver → builder contract
(`[request_url, resource_type, parent_url, parent_source, timestamp,
frame_id]`). -/
structure InfoItem where
  url : String
  resource_type : String
  parent_url : String
  parent_source : String
  timestamp : Int
  frame_id : String
deriving DecidableEq, Repr

/-- Lines 419-422 of `build_redirection_tree`: split a URL at its first `#`
into URL and fragment (the fragment keeps the leading `#`). -/
def splitUrlFragment (s : String) : String × String :=
  if lcHasChar '#' s.data then
    match lcSplitFirst '#' s.data with
    | some (a, b) => (String.mk a, String.mk ('#' :: b))
    | none => (s, "")
  else (s, "")

/-- The parent test of the reverse scan (info_extraction.py:411-412): does a
previously created node's URL + fragment equal the record's parent URL? -/
def parentScan (heap : Heap) (parent_url : String) : Nat → Bool := fun nid =>
  match heap.get? nid with
  | some b => b.url ++ b.url_fragment == parent_url
  | none => false

/-- The loop of `build_redirection_tree` (info_extraction.py:399-428),
carrying the heap, the index, the tree (if the root has been created) and the
creation-ordered `node_list` of identities.  `.error ()` models an uncaught
exception (none is reachable: a parent is only found once the
root — and hence the tree — exists). -/
def buildLoop : Heap → Nat → Option Nat → List Nat → List InfoItem →
    Except Unit (Option TreeState)
  | heap, _, root?, _, [] => .ok (root?.map fun r => ⟨heap, r⟩)
  | heap, i, root?, node_list, item :: rest =>
    if i == 0 && item.resource_type == "Document" && item.parent_url == "" &&
        item.parent_source == "root" then
      match newNode heap item.url "" none item.parent_source item.resource_type
          0 item.timestamp with
      | none => .error ()
      | some (heap', nid) =>
        buildLoop heap' (i + 1) (some nid) (node_list ++ [nid]) rest
    else
      -- reverse scan previously created nodes for (url + fragment) = parent_url
      match node_list.reverse.find? (parentScan heap item.parent_url) with
      | none => buildLoop heap (i + 1) root? node_list rest  -- isolated: ignored
      | some p =>
        let uf := splitUrlFragment item.url
        match newNode heap uf.1 uf.2 (some p) item.parent_source
            item.resource_type 0 item.timestamp with
        | none => .error ()
        | some (heap', nid) =>
          match root? with
          | none => .error ()  -- tree.add_node on tree = None
          | some r =>
            match add_node ⟨heap', r⟩ (.nodeRef nid) with
            | none => .error ()
            | some ts' =>
              buildLoop ts'.heap (i + 1) (some ts'.root) (node_list ++ [nid]) rest

/-- `build_redirection_tree` (info_extraction.py:389-430).  `domain_sample` is
unused by the source function's body. -/
def build_redirection_tree (domain_sample : String)
    (request_info_list : List InfoItem) : Except Unit (Option TreeState) :=
  let _ := domain_sample
  buildLoop [] 0 none [] request_info_list

/-! ## `info_extraction.py`: event normalizer and causality resolver

A telemetry record is modelled by the fields the source reads (field presence
varies by method, exactly as in the raw log).  `extract_target_entries` reads
the performance-log file; its embedding takes the already-parsed list of log
lines (one `LogLine` per line: the decoded message and the line's capture
timestamp). -/

structure Initiator where
  /-- `initiator.type` -/
  itype : String
  /-- `initiator.url`, when present -/
  url : Option String
  /-- `initiator.stack.callFrames[*].url`, when a stack is present -/
  stackUrls : Option (List String)
deriving DecidableEq, Repr

inductive Entry where
  | requestWillBeSent (documentURL frameId loaderId rtype requestUrl : String)
      (urlFragment : Option String) (redirectResponseUrl : Option String)
      (initiator : Initiator) (requestId : String)
  | responseReceived (requestId : String) (headers : List (String × String))
  | frameAttached (frameId parentFrameId : String)
  | frameDetached (frameId : String)
  | loadingFailed (requestId : String)
  | navigatedWithinDocument (frameId url : String)
  | frameRequestedNavigation (frameId url reason : String)
  | downloadWillBegin (url : String)
deriving DecidableEq, Repr

def Entry.method : Entry → String
  | .requestWillBeSent .. => "Network.requestWillBeSent"
  | .responseReceived .. => "Network.responseReceived"
  | .frameAttached .. => "Page.frameAttached"
  | .frameDetached .. => "Page.frameDetached"
  | .loadingFailed .. => "Network.loadingFailed"
  | .navigatedWithinDocument .. => "Page.navigatedWithinDocument"
  | .frameRequestedNavigation .. => "Page.frameRequestedNavigation"
  | .downloadWillBegin .. => "Page.downloadWillBegin"

/-- A raw log line: the decoded message and the line's timestamp. -/
structure LogLine where
  message : Entry
  timestamp : Int
deriving DecidableEq, Repr

/-- A normalized entry: the message with the line timestamp attached
(`message_dict['timestamp'] = line_entry_dict['timestamp']`, line 109). -/
structure TEntry where
  e : Entry
  timestamp : Int
deriving DecidableEq, Repr

def base_method_list : List String :=
  ["Network.requestWillBeSent", "Network.responseReceived",
   "Page.frameAttached", "Page.frameDetached", "Network.loadingFailed",
   "Page.navigatedWithinDocument", "Page.frameRequestedNavigation",
   "Page.downloadWillBegin"]

/-- The browser-crash placeholder document URL (info_extraction.py:93). -/
def errorPlaceholder : String := "chrome-error://chromewebdata/"

/-- Lines 97-107: on a loading-failed record, reverse-search the accumulated
list for the request-sent record with the same request id and remove it. -/
def dropLastFailed (rid : String) (l : List TEntry) : List TEntry :=
  let rl := l.reverse
  match rl.findIdx? (fun te =>
      match te.e with
      | .requestWillBeSent _ _ _ _ _ _ _ _ r => r == rid
      | _ => false) with
  | none => l
  | some i => (rl.eraseIdx i).reverse

/-- The line loop of `extract_target_entries` (info_extraction.py:70-110).
`hasF` is `has_filtered`.  A crash record clears the accumulated list and
stops (`entry_list.clear(); break`). -/
def extLoop (start_url : String) (methods : List String) :
    Bool → List TEntry → List LogLine → List TEntry
  | _, acc, [] => acc
  | hasF, acc, line :: rest =>
    let e := line.message
    -- lines 76-84: skip stale records until the session-start request is seen
    if !hasF && (match e with
        | .requestWillBeSent _ _ _ _ requestUrl _ _ _ _ => requestUrl != start_url
        | _ => true) then
      extLoop start_url methods hasF acc rest
    else
      -- from here on has_filtered is true
      if !(methods.contains e.method) then
        extLoop start_url methods true acc rest
      else
        match e with
        | .responseReceived _ headers =>
          -- line 90: keep only Refresh-related responses
          if !(headers.any fun p => p.1 == "Refresh") then
            extLoop start_url methods true acc rest
          else extLoop start_url methods true (acc ++ [⟨e, line.timestamp⟩]) rest
        | .requestWillBeSent documentURL _ _ _ _ _ _ _ _ =>
          -- lines 92-95: Chrome crash: discard everything and stop
          if documentURL == errorPlaceholder then []
          else extLoop start_url methods true (acc ++ [⟨e, line.timestamp⟩]) rest
        | .loadingFailed rid =>
          -- lines 96-107, then append (line 110) as for every kept entry
          extLoop start_url methods true
            (dropLastFailed rid acc ++ [⟨e, line.timestamp⟩]) rest
        | _ => extLoop start_url methods true (acc ++ [⟨e, line.timestamp⟩]) rest

/-- `extract_target_entries` (info_extraction.py:31-115).  The file read is
modelled by the parsed `lines`; an out-of-range method index (which would
raise IndexError in Python) is dropped. -/
def extract_target_entries (domain_sample : String) (lines : List LogLine)
    (tar_method_idx_list : Option (List Nat)) : List TEntry :=
  let methods :=
    match tar_method_idx_list with
    | some idxs =>
      if idxs.isEmpty then base_method_list
      else idxs.filterMap base_method_list.get?
    | none => base_method_list
  extLoop ("http://" ++ domain_sample ++ "/") methods false [] lines

/-! ### `get_parent_info` -/

/-- A pending frame-navigation reconciliation item
(`[frame_id, navigate_url, reason, timestamp]`, line 189). -/
structure NavInfo where
  frameId : String
  url : String
  reason : String
  timestamp : Int
deriving DecidableEq, Repr

/-- Python `dict[str, str]` as an association list. -/
abbrev SDict := List (String × String)

def dget (d : SDict) (k : String) : Option String :=
  (d.find? fun p => p.1 == k).map (·.2)

def dmem (d : SDict) (k : String) : Bool := (dget d k).isSome

def dput (d : SDict) (k v : String) : SDict :=
  if dmem d k then d.map fun p => if p.1 == k then (k, v) else p
  else d ++ [(k, v)]

def dpop (d : SDict) (k : String) : SDict := d.filter fun p => p.1 != k

/-- The per-event state of `get_parent_info` (info_extraction.py:150-166). -/
structure PIState where
  parent_info_list : List InfoItem
  url_fragment_dict : SDict
  frame_parent_dict : SDict
  frame_url_dict : SDict
  loader_url_dict : SDict
  frame_loader_dict : SDict
  frame_navigate_info_list : List NavInfo
deriving DecidableEq, Repr

def piInit : PIState := ⟨[], [], [], [], [], [], []⟩

/-- Lines 231-244: the initiator URL (explicit field, else the deduplicated
non-empty call-stack URLs joined by `;`).  `get_parent_info` computes this
value but never consumes it; it is embedded for completeness. -/
def initiatorUrl (ini : Initiator) : Option String :=
  match ini.url with
  | some u => some u
  | none =>
    match ini.stackUrls with
    | some frames =>
      let call_url_list := frames.foldl
        (fun acc u => if u != "" && !(acc.contains u) then acc ++ [u] else acc) []
      if call_url_list.isEmpty then some "" else some (String.intercalate ";" call_url_list)
    | none => none

/-- Replace the element at an index (no-op when out of range). -/
def modifyAt (f : α → α) : Nat → List α → List α
  | _, [] => []
  | 0, x :: xs => f x :: xs
  | n + 1, x :: xs => x :: modifyAt f n xs

/-- Lines 361-369: a download-begin record reclassifies the most recent
matching causal-link record as a Download. -/
def setLastDownload (durl : String) (pil : List InfoItem) : List InfoItem :=
  let rl := pil.reverse
  match rl.findIdx? (fun it => it.url == durl) with
  | none => pil
  | some j => (modifyAt (fun it => { it with resource_type := "Download" }) j rl).reverse

/-- One-event outcome of `get_parent_info`'s loop: continue with a new state,
`break` out of the loop, or raise (`KeyError`). -/
inductive StepOut where
  | cont (s : PIState)
  | brk (s : PIState)
  | err
deriving Repr

/-- One iteration of the event loop of `get_parent_info`
(info_extraction.py:168-369); `i` is the enumeration index. -/
def piStep (i : Nat) (st : PIState) (te : TEntry) : StepOut :=
  match te.e with
  | .frameAttached fid pfid =>
    .cont { st with frame_parent_dict := dput st.frame_parent_dict fid pfid }
  | .frameDetached fid =>
    let fp := if dmem st.frame_parent_dict fid then dpop st.frame_parent_dict fid
      else st.frame_parent_dict
    let fu := if dmem st.frame_url_dict fid then dpop st.frame_url_dict fid
      else st.frame_url_dict
    .cont { st with frame_parent_dict := fp, frame_url_dict := fu }
  | .frameRequestedNavigation fid url reason =>
    .cont { st with frame_navigate_info_list :=
      st.frame_navigate_info_list ++ [⟨fid, url, reason, te.timestamp⟩] }
  | .requestWillBeSent _documentURL frameId loaderId rtype requestUrl
      urlFragment redirectResponseUrl ini _rid =>
    -- (`documentURL` is only dead-stored by the source: line 312's initial
    -- value of `parent_url` is unconditionally overwritten at 313-316)
    if rtype == "Document" then
      -- lines 248-253: complete the URL with its fragment
      let request_url :=
        match urlFragment with
        | some frag => requestUrl ++ frag
        | none => requestUrl
      let st := { st with
        url_fragment_dict := dput st.url_fragment_dict requestUrl request_url }
      -- lines 296-300: frame/loader updates applied on every emitted record
      let upd := fun (s2 : PIState) => { s2 with
        frame_url_dict := dput s2.frame_url_dict frameId request_url,
        loader_url_dict := dput s2.loader_url_dict loaderId request_url,
        frame_loader_dict := dput s2.frame_loader_dict frameId loaderId }
      if i == 0 then
        -- 4.1.1: the session root
        .cont (upd { st with parent_info_list := st.parent_info_list ++
          [⟨request_url, rtype, "", "root", te.timestamp, frameId⟩] })
      else
        match redirectResponseUrl with
        | some rru =>
          -- 4.1.2: a 30X redirection; KeyError if the redirecting URL was
          -- never registered in url_fragment_dict (line 266)
          match dget st.url_fragment_dict rru with
          | none => .err
          | some parent_url =>
            .cont (upd { st with parent_info_list := st.parent_info_list ++
              [⟨request_url, rtype, parent_url, "redirectResponse",
                te.timestamp, frameId⟩] })
        | none =>
          if !st.frame_parent_dict.isEmpty && dmem st.frame_parent_dict frameId then
            -- 4.1.3: an iframe-owned document
            let pfid0 := (dget st.frame_parent_dict frameId).getD ""
            if dmem st.frame_url_dict pfid0 then
              .cont (upd { st with parent_info_list := st.parent_info_list ++
                [⟨request_url, rtype, (dget st.frame_url_dict pfid0).getD "",
                  ini.itype, te.timestamp, frameId⟩] })
            else
              match dget st.frame_parent_dict pfid0 with
              | none => .err  -- KeyError, line 275
              | some pfid1 =>
                match dget st.frame_url_dict pfid1 with
                | none => .cont st  -- line 277: skipped (no frame/loader update)
                | some purl =>
                  .cont (upd { st with parent_info_list := st.parent_info_list ++
                    [⟨request_url, rtype, purl, ini.itype, te.timestamp, frameId⟩] })
          else
            -- 4.1.4: same-frame navigation; KeyError if the frame is
            -- unregistered (line 291)
            match dget st.frame_url_dict frameId with
            | none => .err
            | some parent_url =>
              .cont (upd { st with parent_info_list := st.parent_info_list ++
                [⟨request_url, rtype, parent_url, ini.itype, te.timestamp, frameId⟩] })
    else
      -- 4.2: non-Document requests
      if !dmem st.loader_url_dict loaderId && !dmem st.frame_url_dict frameId then
        .cont st  -- line 305: left over from another session
      else
        let request_url :=
          match urlFragment with
          | some frag => requestUrl ++ frag
          | none => requestUrl
        let parent_url :=
          match dget st.loader_url_dict loaderId with
          | some v => v
          | none => (dget st.frame_url_dict frameId).getD ""
        if ini.itype == "script" || ini.itype == "parser" || ini.itype == "other" then
          .cont { st with parent_info_list := st.parent_info_list ++
            [⟨request_url, rtype, parent_url, ini.itype, te.timestamp, frameId⟩] }
        else
          -- lines 327-329: unknown initiator type: print and break
          .brk st
  | .navigatedWithinDocument fid navUrl =>
    if !dmem st.frame_url_dict fid then .cont st  -- lines 338-341
    else
      let parent_url := (dget st.frame_url_dict fid).getD ""
      let nprefix := String.mk ((lcSplitAll '#' navUrl.data).headD navUrl.data)
      let st := { st with
        url_fragment_dict := dput st.url_fragment_dict nprefix navUrl,
        frame_url_dict := dput st.frame_url_dict fid navUrl }
      match dget st.frame_loader_dict fid with
      | none => .err  -- KeyError, line 354
      | some lid =>
        .cont { st with
          loader_url_dict := dput st.loader_url_dict lid navUrl,
          parent_info_list := st.parent_info_list ++
            [⟨navUrl, "Document", parent_url, "navigatedWithinDocument",
              te.timestamp, fid⟩] }
  | .downloadWillBegin durl =>
    .cont { st with parent_info_list := setLastDownload durl st.parent_info_list }
  | .responseReceived .. => .cont st  -- no branch of the if/elif chain
  | .loadingFailed .. => .cont st

/-- The event loop (info_extraction.py:168-369): the final state and whether
the loop was left by `break`; `none` models an uncaught KeyError. -/
def piLoop : Nat → PIState → List TEntry → Option (PIState × Bool)
  | _, s, [] => some (s, false)
  | i, s, te :: rest =>
    match piStep i s te with
    | .cont s' => piLoop (i + 1) s' rest
    | .brk s' => some (s', true)
    | .err => none

/-- The inner `while` of the reconciliation pass (info_extraction.py:375-384):
advance `tar_idx` until a matching Document record is found (frame, URL, and
timestamp within 20 units) and overwrite its mechanism.  The index advances
past a match; one fuel unit per test, `pil.length + 1` always suffices. -/
def fixInner (nav : NavInfo) : Nat → List InfoItem → Nat → List InfoItem × Nat
  | 0, pil, t => (pil, t)
  | fuel + 1, pil, t =>
    if h : t < pil.length then
      let item := pil.get ⟨t, h⟩
      if item.resource_type == "Document" && item.frame_id == nav.frameId &&
          item.url == nav.url && (item.timestamp - nav.timestamp).natAbs < 20 then
        (modifyAt (fun it => { it with parent_source := nav.reason }) t pil, t + 1)
      else fixInner nav fuel pil (t + 1)
    else (pil, t)

/-- The reconciliation pass (info_extraction.py:371-384), `tar_idx` threaded
across the pending navigation items. -/
def fixLoop : List NavInfo → List InfoItem → Nat → List InfoItem
  | [], pil, _ => pil
  | nav :: navs, pil, t =>
    let p := fixInner nav (pil.length + 1) pil t
    fixLoop navs p.1 p.2

/-- `get_parent_info` (info_extraction.py:118-386): resolve every normalized
event to a causal-link record, then reconcile frame-navigation mechanisms.
`none` models an uncaught KeyError. -/
def get_parent_info (entry_list : List TEntry) : Option (List InfoItem) :=
  match piLoop 0 piInit entry_list with
  | none => none
  | some (s, _) => some (fixLoop s.frame_navigate_info_list s.parent_info_list 1)

mutual
/-- The parent→child edges of the tree (pairs of node data). -/
def edgesOf : RTree → List (NData × NData)
  | .mk d cs => (cs.map fun c => (d, c.data)) ++ edgesOfL cs

def edgesOfL : List RTree → List (NData × NData)
  | [] => []
  | t :: ts => edgesOf t ++ edgesOfL ts
end

/-! # Theorems -/

/-! ## Helper lemmas on the list utilities -/

theorem lcSplitFirst_recombine (sep : Char) :
    ∀ (s a b : List Char), lcSplitFirst sep s = some (a, b) → a ++ sep :: b = s := by
  intro s
  induction s with
  | nil => intro a b h; simp [lcSplitFirst] at h
  | cons c cs ih =>
    intro a b h
    simp only [lcSplitFirst] at h
    by_cases hc : (c == sep : Bool)
    · rw [if_pos hc] at h
      obtain ⟨ha, hb⟩ := by simpa using h
      subst ha; subst hb
      simp [(by simpa using hc : c = sep)]
    · rw [if_neg hc] at h
      match hr : lcSplitFirst sep cs with
      | none => rw [hr] at h; simp at h
      | some (a', b') =>
        rw [hr] at h
        obtain ⟨ha, hb⟩ := by simpa using h
        subst ha; subst hb
        simp [ih a' b' hr]

theorem lcHasChar_of_splitFirst_none (sep : Char) :
    ∀ s : List Char, lcSplitFirst sep s = none → lcHasChar sep s = false := by
  intro s
  induction s with
  | nil => intro _; rfl
  | cons c cs ih =>
    intro h
    simp only [lcSplitFirst] at h
    by_cases hc : (c == sep : Bool)
    · rw [if_pos hc] at h; simp at h
    · rw [if_neg hc] at h
      have := ih (by
        match hr : lcSplitFirst sep cs with
        | none => rfl
        | some p => rw [hr] at h; simp at h)
      simp [lcHasChar] at this ⊢
      exact ⟨fun hcc => by simp [hcc] at hc, by simpa [lcHasChar] using this⟩

/-- `splitUrlFragment` recombines to the original string: the node created by
the Tree Builder always satisfies `url ++ url_fragment = record URL`. -/
theorem splitUrlFragment_recombine (s : String) :
    (splitUrlFragment s).1 ++ (splitUrlFragment s).2 = s := by
  unfold splitUrlFragment
  by_cases h : (lcHasChar '#' s.data : Bool)
  · rw [if_pos h]
    match hr : lcSplitFirst '#' s.data with
    | none => simp
    | some (a, b) =>
      have := lcSplitFirst_recombine '#' s.data a b hr
      simp only []
      apply String.ext
      simpa [String.data_append] using this
  · rw [if_neg h]
    simp

theorem splitUrlFragment_no_hash (s : String) (h : lcHasChar '#' s.data = false) :
    splitUrlFragment s = (s, "") := by
  unfold splitUrlFragment
  rw [if_neg (by simp [h])]

/-! ## C9: `url_cmp` symmetry and encoding-insensitivity -/

/-- C9: URL comparison is symmetric — for all strings `a` and `b`,
`url_cmp a b = url_cmp b a` — and case/percent-encoding-insensitive; in
particular `url_cmp "http://A.com/%61" "http://a.com/a"` is true. -/
theorem url_cmp_symmetric_and_insensitive :
    (∀ a b : String, url_cmp a b = url_cmp b a) ∧
    url_cmp "http://A.com/%61" "http://a.com/a" = true := by
  constructor
  · intro a b
    unfold url_cmp
    refine Bool.eq_iff_iff.mpr ?_
    simp only [beq_iff_eq]
    exact eq_comm
  · decide

/-! ## C5: canonicalization is *not* idempotent (code bug) -/

/-- C5: evaluation of the canonicalizer at the failing input
`u = "http://a%2541.com/"` (a syntactically valid http URL with a
double-percent-encoded authority).  `get_valid_url u = "http://a%41.com/"`,
but canonicalizing that output again gives the different string
`"http://aA.com/"`: `get_valid_url (get_valid_url u) ≠ get_valid_url u`,
because the single `unquote` pass of line 88 decodes only one layer of
percent-encoding.  This contradicts the claimed idempotence (and the
function's own goal of eliminating redundant hex encodings, line 17/87). -/
theorem get_valid_url_not_idempotent :
    get_valid_url "http://a%2541.com/" = .ok (some "http://a%41.com/") ∧
    get_valid_url "http://a%41.com/" = .ok (some "http://aA.com/") ∧
    "http://aA.com/" ≠ "http://a%41.com/" :=
  ⟨rfl, rfl, by decide⟩

/-! ## C8: the canonicalizer's explicit-rejection characterization -/

/-- When the quoted path holds no `"/../"`, the path-building step of
`get_valid_url` cannot reach `urljoin` and therefore never raises. -/
theorem pathPart_ok_no_dotdot (base : List Char) (path : String)
    (h : lcHasSub "/../".data (PyUrl.quote safePath path).data = false) :
    ∃ a, pathPart base path = .ok a := by
  by_cases h0 : path = ""
  · exact ⟨_, by rw [pathPart, if_pos h0]⟩
  · by_cases h1 : lcHasSub "/./".data path.data = true
    · exact ⟨_, by rw [pathPart, if_neg h0, if_pos h1]⟩
    · have hdd : ¬ lcHasSub "/../".data (PyUrl.quote safePath path).data =
          true := by
        rw [h]; exact Bool.false_ne_true
      exact ⟨_, by rw [pathPart, if_neg h0, if_neg h1, if_neg hdd]⟩

/-- **C8** (corrected).  Amended claim: for every input whose (repaired) text
parses, the canonicalizer returns the explicit no-canonical-form result
`None` exactly when the parsed scheme is not http/https or the parsed
authority is empty; on every other parseable input whose quoted path does
not contain `"/../"` it returns a canonical string without raising.  The
unrestricted never-raises half of the original claim is refuted by
`get_valid_url_raises_in_dotdot_branch`: in the `'/../'` branch the netloc —
percent-decoded at line 88 — is re-parsed by `urljoin` (line 117), whose
`ValueError` on an unbalanced bracket escapes `get_valid_url`. -/
theorem get_valid_url_none_characterization (s : String) (p : PyUrl.UrlParts)
    (h : PyUrl.urlparse (repairedUrl s) = .ok p) :
    ((get_valid_url s = .ok none) ↔
      (¬ (p.scheme = "http" ∨ p.scheme = "https") ∨ p.netloc = "")) ∧
    ((p.scheme = "http" ∨ p.scheme = "https") → p.netloc ≠ "" →
      lcHasSub "/../".data (PyUrl.quote safePath p.path).data = false →
      ∃ v, get_valid_url s = .ok (some v)) := by
  by_cases hc : (¬ (p.scheme = "http" ∨ p.scheme = "https") ∨ p.netloc = "")
  · constructor
    · refine ⟨fun _ => hc, fun _ => ?_⟩
      simp only [get_valid_url, h]
      rw [if_pos hc]
    · intro hg1 hg2 _
      rcases hc with hc | hc
      · exact absurd hg1 hc
      · exact absurd hc hg2
  · have hall : ∀ (hs : lcHasSub "/../".data
        (PyUrl.quote safePath p.path).data = false),
        ∃ v, get_valid_url s = .ok (some v) := by
      intro hs
      simp only [get_valid_url, h]
      rw [if_neg hc]
      split
      · rename_i a heq
        obtain ⟨b, hb⟩ := pathPart_ok_no_dotdot _ p.path hs
        rw [hb] at heq
        cases heq
      · exact ⟨_, rfl⟩
    constructor
    · refine ⟨fun hn => ?_, fun hcc => absurd hcc hc⟩
      simp only [get_valid_url, h] at hn
      rw [if_neg hc] at hn
      split at hn
      · cases hn
      · simp at hn
    · exact fun _ _ hs => hall hs

/-- C8 counterexample to the original claim: `get_valid_url` *raises* on the
parseable web URL `"http://a%5bb.com/../x"` — the netloc `a%5bb.com`
percent-decodes to `a[b.com`, and the `'/../'` branch feeds it back through
`urljoin`, where the re-parse raises `ValueError` ("Invalid IPv6 URL") with
no enclosing try/except. -/
theorem get_valid_url_raises_in_dotdot_branch :
    get_valid_url "http://a%5bb.com/../x" = .error () ∧
    PyUrl.urlparse (repairedUrl "http://a%5bb.com/../x") =
      .ok ⟨"http", "a%5bb.com", "/../x", "", "", ""⟩ :=
  ⟨rfl, rfl⟩

/-- Witness for the amended C8: the rejected input `"ftp://a.com/"` yields
`None`, and the plain web URL `"http://a.com/b"` yields a canonical string. -/
theorem get_valid_url_none_characterization_witness :
    get_valid_url "ftp://a.com/" = .ok none ∧
    ∃ v, get_valid_url "http://a.com/b" = .ok (some v) :=
  ⟨(get_valid_url_none_characterization "ftp://a.com/"
      ⟨"ftp", "a.com", "/", "", "", ""⟩ rfl).1.mpr (by decide),
   (get_valid_url_none_characterization "http://a.com/b"
      ⟨"http", "a.com", "/b", "", "", ""⟩ rfl).2 (Or.inl rfl)
      (by decide) (by decide)⟩

/-! ## C10: `add_node` on a non-`Node` argument is a no-op -/

/-- C10: for every tree state and every argument that is not a `Node`
instance, `add_node` returns with the state unchanged — the root and every
node's children list, parent reference and depth are exactly as before. -/
theorem add_node_non_node_is_noop (ts : TreeState) (v : PyObj)
    (h : v.isNode = false) : add_node ts v = some ts := by
  cases v with
  | notNode => rfl
  | nodeRef n => simp [PyObj.isNode] at h

/-- Witness for C10 at a concrete one-node tree. -/
theorem add_node_non_node_is_noop_witness :
    add_node ⟨[⟨"http://a.com/", "", none, "root", "Document", 0, 0, 1, []⟩], 0⟩
        PyObj.notNode =
      some ⟨[⟨"http://a.com/", "", none, "root", "Document", 0, 0, 1, []⟩], 0⟩ :=
  add_node_non_node_is_noop _ _ rfl


/-! ## C4: the loop tie-break of the Tree Builder -/

theorem strAppendEmpty (s : String) : s ++ "" = s := by
  apply String.ext
  rw [String.data_append]
  exact List.append_nil _

/-- One non-root step of the builder loop when the reverse scan finds parent
`p`: the new node (index `heap.length`) is created with depth
`parent.depth + 1` and appended to the parent's `children_list`. -/
theorem buildLoop_step_child {heap : Heap} {r : Nat} (i : Nat) (nl : List Nat)
    (item : InfoItem) {rest : List InfoItem} {p : Nat} {pb : BNode}
    (hne : (i == 0 && item.resource_type == "Document" && item.parent_url == ""
      && item.parent_source == "root") = false)
    (hfind : nl.reverse.find? (parentScan heap item.parent_url) = some p)
    (hp : heap.get? p = some pb) :
    buildLoop heap i (some r) nl (item :: rest) =
      buildLoop ((heap ++ [(⟨(splitUrlFragment item.url).1,
          (splitUrlFragment item.url).2, some p, item.parent_source,
          item.resource_type, 0, item.timestamp, pb.depth + 1, []⟩ : BNode)]).set p
          { pb with children_list := pb.children_list ++ [heap.length] })
        (i + 1) (some r) (nl ++ [heap.length]) rest := by
  obtain ⟨hplt, -⟩ := List.get?_eq_some.mp hp
  rw [buildLoop, hne]
  simp only [Bool.false_eq_true, if_false, hfind]
  simp only [newNode, hp, add_node, List.get?_concat_length]
  simp only [List.get?_append hplt, hp]

/-- C4: for causal-link records encoding the loop A→B→C→D→B followed by a
record whose parent URL is B, the built tree has two distinct nodes with URL
B (heap indices 1 and 4); the second B is attached as a child of the D node
(index 3), not of the A node (index 0); and the later record with parent URL
B attaches under the newest B (index 4) — because the reverse scan over
previously-created nodes lets the most recently created (URL + fragment)
match win.  `a … e`, the frame id and all timestamps are arbitrary; B and D
are assumed fragment-free so the node URLs can be stated verbatim. -/
theorem build_redirection_tree_loop_tie_break
    (dom a b c d e f : String) (t0 t1 t2 t3 t4 t5 : Int)
    (hb : lcHasChar '#' b.data = false) (hd : lcHasChar '#' d.data = false) :
    ∃ ts, build_redirection_tree dom
        [⟨a, "Document", "", "root", t0, f⟩,
         ⟨b, "Document", a, "redirectResponse", t1, f⟩,
         ⟨c, "Document", b, "redirectResponse", t2, f⟩,
         ⟨d, "Document", c, "redirectResponse", t3, f⟩,
         ⟨b, "Document", d, "redirectResponse", t4, f⟩,
         ⟨e, "Document", b, "redirectResponse", t5, f⟩] = .ok (some ts) ∧
      ts.heap.length = 6 ∧
      (∃ n1, ts.heap.get? 1 = some n1 ∧ n1.url = b ∧ n1.parent = some 0) ∧
      (∃ n3, ts.heap.get? 3 = some n3 ∧ n3.url = d) ∧
      (∃ n4, ts.heap.get? 4 = some n4 ∧ n4.url = b ∧ n4.parent = some 3 ∧
        n4.parent ≠ some 0 ∧
        (∃ n3, ts.heap.get? 3 = some n3 ∧ 4 ∈ n3.children_list)) ∧
      (∃ n5, ts.heap.get? 5 = some n5 ∧ n5.parent = some 4) := by
  have hsb : (splitUrlFragment b).1 = b ∧ (splitUrlFragment b).2 = "" := by
    rw [splitUrlFragment_no_hash b hb]; exact ⟨rfl, rfl⟩
  have hsd : (splitUrlFragment d).1 = d ∧ (splitUrlFragment d).2 = "" := by
    rw [splitUrlFragment_no_hash d hd]; exact ⟨rfl, rfl⟩
  have hbuild : build_redirection_tree dom
      [⟨a, "Document", "", "root", t0, f⟩,
       ⟨b, "Document", a, "redirectResponse", t1, f⟩,
       ⟨c, "Document", b, "redirectResponse", t2, f⟩,
       ⟨d, "Document", c, "redirectResponse", t3, f⟩,
       ⟨b, "Document", d, "redirectResponse", t4, f⟩,
       ⟨e, "Document", b, "redirectResponse", t5, f⟩] = .ok (some
      ⟨[⟨a, "", none, "root", "Document", 0, t0, 1, [1]⟩,
        ⟨(splitUrlFragment b).1, (splitUrlFragment b).2, some 0,
          "redirectResponse", "Document", 0, t1, 2, [2]⟩,
        ⟨(splitUrlFragment c).1, (splitUrlFragment c).2, some 1,
          "redirectResponse", "Document", 0, t2, 3, [3]⟩,
        ⟨(splitUrlFragment d).1, (splitUrlFragment d).2, some 2,
          "redirectResponse", "Document", 0, t3, 4, [4]⟩,
        ⟨(splitUrlFragment b).1, (splitUrlFragment b).2, some 3,
          "redirectResponse", "Document", 0, t4, 5, [5]⟩,
        ⟨(splitUrlFragment e).1, (splitUrlFragment e).2, some 4,
          "redirectResponse", "Document", 0, t5, 6, []⟩], 0⟩) := by
    have hf1 : List.find? (parentScan
        [⟨a, "", none, "root", "Document", 0, t0, 1, []⟩] a) [0] = some 0 := by
      apply List.find?_cons_of_pos
      show (a ++ "" == a) = true
      rw [strAppendEmpty]; exact beq_self_eq_true a
    have hf2 : List.find? (parentScan
        [⟨a, "", none, "root", "Document", 0, t0, 1, [1]⟩,
         ⟨(splitUrlFragment b).1, (splitUrlFragment b).2, some 0,
           "redirectResponse", "Document", 0, t1, 2, []⟩] b) [1, 0] = some 1 := by
      apply List.find?_cons_of_pos
      show ((splitUrlFragment b).1 ++ (splitUrlFragment b).2 == b) = true
      rw [splitUrlFragment_recombine]; exact beq_self_eq_true b
    have hf3 : List.find? (parentScan
        [⟨a, "", none, "root", "Document", 0, t0, 1, [1]⟩,
         ⟨(splitUrlFragment b).1, (splitUrlFragment b).2, some 0,
           "redirectResponse", "Document", 0, t1, 2, [2]⟩,
         ⟨(splitUrlFragment c).1, (splitUrlFragment c).2, some 1,
           "redirectResponse", "Document", 0, t2, 3, []⟩] c) [2, 1, 0] = some 2 := by
      apply List.find?_cons_of_pos
      show ((splitUrlFragment c).1 ++ (splitUrlFragment c).2 == c) = true
      rw [splitUrlFragment_recombine]; exact beq_self_eq_true c
    have hf4 : List.find? (parentScan
        [⟨a, "", none, "root", "Document", 0, t0, 1, [1]⟩,
         ⟨(splitUrlFragment b).1, (splitUrlFragment b).2, some 0,
           "redirectResponse", "Document", 0, t1, 2, [2]⟩,
         ⟨(splitUrlFragment c).1, (splitUrlFragment c).2, some 1,
           "redirectResponse", "Document", 0, t2, 3, [3]⟩,
         ⟨(splitUrlFragment d).1, (splitUrlFragment d).2, some 2,
           "redirectResponse", "Document", 0, t3, 4, []⟩] d) [3, 2, 1, 0] = some 3 := by
      apply List.find?_cons_of_pos
      show ((splitUrlFragment d).1 ++ (splitUrlFragment d).2 == d) = true
      rw [splitUrlFragment_recombine]; exact beq_self_eq_true d
    have hf5 : List.find? (parentScan
        [⟨a, "", none, "root", "Document", 0, t0, 1, [1]⟩,
         ⟨(splitUrlFragment b).1, (splitUrlFragment b).2, some 0,
           "redirectResponse", "Document", 0, t1, 2, [2]⟩,
         ⟨(splitUrlFragment c).1, (splitUrlFragment c).2, some 1,
           "redirectResponse", "Document", 0, t2, 3, [3]⟩,
         ⟨(splitUrlFragment d).1, (splitUrlFragment d).2, some 2,
           "redirectResponse", "Document", 0, t3, 4, [4]⟩,
         ⟨(splitUrlFragment b).1, (splitUrlFragment b).2, some 3,
           "redirectResponse", "Document", 0, t4, 5, []⟩] b) [4, 3, 2, 1, 0] =
        some 4 := by
      apply List.find?_cons_of_pos
      show ((splitUrlFragment b).1 ++ (splitUrlFragment b).2 == b) = true
      rw [splitUrlFragment_recombine]; exact beq_self_eq_true b
    change buildLoop [⟨a, "", none, "root", "Document", 0, t0, 1, []⟩] 1 (some 0)
      [0] [⟨b, "Document", a, "redirectResponse", t1, f⟩,
        ⟨c, "Document", b, "redirectResponse", t2, f⟩,
        ⟨d, "Document", c, "redirectResponse", t3, f⟩,
        ⟨b, "Document", d, "redirectResponse", t4, f⟩,
        ⟨e, "Document", b, "redirectResponse", t5, f⟩] = _
    rw [buildLoop_step_child 1 [0] ⟨b, "Document", a, "redirectResponse", t1, f⟩ rfl hf1 rfl]
    change buildLoop
      [⟨a, "", none, "root", "Document", 0, t0, 1, [1]⟩,
       ⟨(splitUrlFragment b).1, (splitUrlFragment b).2, some 0,
         "redirectResponse", "Document", 0, t1, 2, []⟩] 2 (some 0) [0, 1]
      [⟨c, "Document", b, "redirectResponse", t2, f⟩,
       ⟨d, "Document", c, "redirectResponse", t3, f⟩,
       ⟨b, "Document", d, "redirectResponse", t4, f⟩,
       ⟨e, "Document", b, "redirectResponse", t5, f⟩] = _
    rw [buildLoop_step_child 2 [0, 1] ⟨c, "Document", b, "redirectResponse", t2, f⟩ rfl hf2 rfl]
    change buildLoop
      [⟨a, "", none, "root", "Document", 0, t0, 1, [1]⟩,
       ⟨(splitUrlFragment b).1, (splitUrlFragment b).2, some 0,
         "redirectResponse", "Document", 0, t1, 2, [2]⟩,
       ⟨(splitUrlFragment c).1, (splitUrlFragment c).2, some 1,
         "redirectResponse", "Document", 0, t2, 3, []⟩] 3 (some 0) [0, 1, 2]
      [⟨d, "Document", c, "redirectResponse", t3, f⟩,
       ⟨b, "Document", d, "redirectResponse", t4, f⟩,
       ⟨e, "Document", b, "redirectResponse", t5, f⟩] = _
    rw [buildLoop_step_child 3 [0, 1, 2] ⟨d, "Document", c, "redirectResponse", t3, f⟩ rfl hf3 rfl]
    change buildLoop
      [⟨a, "", none, "root", "Document", 0, t0, 1, [1]⟩,
       ⟨(splitUrlFragment b).1, (splitUrlFragment b).2, some 0,
         "redirectResponse", "Document", 0, t1, 2, [2]⟩,
       ⟨(splitUrlFragment c).1, (splitUrlFragment c).2, some 1,
         "redirectResponse", "Document", 0, t2, 3, [3]⟩,
       ⟨(splitUrlFragment d).1, (splitUrlFragment d).2, some 2,
         "redirectResponse", "Document", 0, t3, 4, []⟩] 4 (some 0) [0, 1, 2, 3]
      [⟨b, "Document", d, "redirectResponse", t4, f⟩,
       ⟨e, "Document", b, "redirectResponse", t5, f⟩] = _
    rw [buildLoop_step_child 4 [0, 1, 2, 3] ⟨b, "Document", d, "redirectResponse", t4, f⟩ rfl hf4 rfl]
    change buildLoop
      [⟨a, "", none, "root", "Document", 0, t0, 1, [1]⟩,
       ⟨(splitUrlFragment b).1, (splitUrlFragment b).2, some 0,
         "redirectResponse", "Document", 0, t1, 2, [2]⟩,
       ⟨(splitUrlFragment c).1, (splitUrlFragment c).2, some 1,
         "redirectResponse", "Document", 0, t2, 3, [3]⟩,
       ⟨(splitUrlFragment d).1, (splitUrlFragment d).2, some 2,
         "redirectResponse", "Document", 0, t3, 4, [4]⟩,
       ⟨(splitUrlFragment b).1, (splitUrlFragment b).2, some 3,
         "redirectResponse", "Document", 0, t4, 5, []⟩] 5 (some 0) [0, 1, 2, 3, 4]
      [⟨e, "Document", b, "redirectResponse", t5, f⟩] = _
    rw [buildLoop_step_child 5 [0, 1, 2, 3, 4] ⟨e, "Document", b, "redirectResponse", t5, f⟩ rfl hf5 rfl]
    rfl
  refine ⟨_, hbuild, rfl, ⟨_, rfl, hsb.1, rfl⟩, ⟨_, rfl, hsd.1⟩,
    ⟨_, rfl, hsb.1, rfl, by simp, ⟨_, rfl, by simp⟩⟩, ⟨_, rfl, rfl⟩⟩

/-- Witness for C4 at concrete URLs. -/
theorem build_redirection_tree_loop_tie_break_witness :
    ∃ ts, build_redirection_tree "a.com"
        [⟨"http://a/", "Document", "", "root", 0, "F"⟩,
         ⟨"http://b/", "Document", "http://a/", "redirectResponse", 1, "F"⟩,
         ⟨"http://c/", "Document", "http://b/", "redirectResponse", 2, "F"⟩,
         ⟨"http://d/", "Document", "http://c/", "redirectResponse", 3, "F"⟩,
         ⟨"http://b/", "Document", "http://d/", "redirectResponse", 4, "F"⟩,
         ⟨"http://e/", "Document", "http://b/", "redirectResponse", 5, "F"⟩] =
        .ok (some ts) ∧
      ts.heap.length = 6 ∧
      (∃ n1, ts.heap.get? 1 = some n1 ∧ n1.url = "http://b/" ∧ n1.parent = some 0) ∧
      (∃ n3, ts.heap.get? 3 = some n3 ∧ n3.url = "http://d/") ∧
      (∃ n4, ts.heap.get? 4 = some n4 ∧ n4.url = "http://b/" ∧ n4.parent = some 3 ∧
        n4.parent ≠ some 0 ∧
        (∃ n3, ts.heap.get? 3 = some n3 ∧ 4 ∈ n3.children_list)) ∧
      (∃ n5, ts.heap.get? 5 = some n5 ∧ n5.parent = some 4) :=
  build_redirection_tree_loop_tie_break "a.com" "http://a/" "http://b/"
    "http://c/" "http://d/" "http://e/" "F" 0 1 2 3 4 5 (by decide) (by decide)

/-! ## C7: the depth/parent invariant of every built tree -/

/-- The heap invariant the builder maintains: node 0 is the unique parentless
node (the root, depth 1); every other node's parent is an earlier node and
its depth is the parent's depth + 1. -/
def HeapInv (heap : Heap) : Prop :=
  ∀ j bn, heap.get? j = some bn →
    (bn.parent = none ↔ j = 0) ∧
    (j = 0 → bn.depth = 1) ∧
    (∀ p, bn.parent = some p → p < j ∧
      ∃ pb, heap.get? p = some pb ∧ bn.depth = pb.depth + 1)

theorem heapInv_root (url ps rt : String) (lb t : Int) :
    HeapInv [⟨url, "", none, ps, rt, lb, t, 1, []⟩] := by
  intro j bn hj
  cases j with
  | zero =>
    simp only [List.get?, Option.some.injEq] at hj
    subst hj
    exact ⟨by simp, fun _ => rfl, by simp⟩
  | succ n => simp [List.get?] at hj

theorem heapInv_append (heap : Heap) (h : HeapInv heap) (p : Nat) (pb : BNode)
    (hp : heap.get? p = some pb) (url frag ps rt : String) (lb t : Int) :
    HeapInv (heap ++ [⟨url, frag, some p, ps, rt, lb, t, pb.depth + 1, []⟩]) := by
  have hplt : p < heap.length := (List.get?_eq_some.mp hp).1
  intro j bn hj
  by_cases hjl : j < heap.length
  · rw [List.get?_append hjl] at hj
    obtain ⟨h1, h2, h3⟩ := h j bn hj
    refine ⟨h1, h2, fun q hq => ?_⟩
    obtain ⟨hlt, pb', hpb', hd⟩ := h3 q hq
    exact ⟨hlt, pb', by rw [List.get?_append (lt_trans hlt hjl)]; exact hpb', hd⟩
  · by_cases hje : j = heap.length
    · subst hje
      rw [List.get?_concat_length] at hj
      cases hj
      have hlen0 : heap.length ≠ 0 := by
        intro h0
        rw [h0] at hplt
        exact Nat.not_lt_zero p hplt
      refine ⟨⟨fun hn => by simp at hn, fun h0 => absurd h0 hlen0⟩,
        fun h0 => absurd h0 hlen0, fun q hq => ?_⟩
      have hqp : p = q := by simpa using hq
      subst hqp
      exact ⟨hplt, pb, by rw [List.get?_append hplt]; exact hp, rfl⟩
    · exfalso
      have hlen : (heap ++ [(⟨url, frag, some p, ps, rt, lb, t, pb.depth + 1,
          []⟩ : BNode)]).length ≤ j := by
        simp only [List.length_append, List.length_cons, List.length_nil]
        omega
      rw [List.get?_eq_none.mpr hlen] at hj
      cases hj

theorem heapInv_set_children (heap : Heap) (h : HeapInv heap) (p : Nat)
    (pb : BNode) (hp : heap.get? p = some pb) (cl : List Nat) :
    HeapInv (heap.set p { pb with children_list := cl }) := by
  have hplt : p < heap.length := (List.get?_eq_some.mp hp).1
  intro j bn hj
  by_cases hje : p = j
  · subst hje
    rw [List.get?_set_eq_of_lt _ hplt] at hj
    cases hj
    obtain ⟨h1, h2, h3⟩ := h p pb hp
    refine ⟨h1, h2, fun q hq => ?_⟩
    obtain ⟨hlt, pb', hpb', hd⟩ := h3 q hq
    refine ⟨hlt, pb', ?_, hd⟩
    rw [List.get?_set_ne _ _ (Nat.ne_of_gt hlt)]
    exact hpb'
  · rw [List.get?_set_ne _ _ hje] at hj
    obtain ⟨h1, h2, h3⟩ := h j bn hj
    refine ⟨h1, h2, fun q hq => ?_⟩
    obtain ⟨hlt, pb', hpb', hd⟩ := h3 q hq
    by_cases hqp : p = q
    · subst hqp
      refine ⟨hlt, _, List.get?_set_eq_of_lt _ hplt, ?_⟩
      rw [hp] at hpb'
      cases hpb'
      exact hd
    · exact ⟨hlt, pb', by rw [List.get?_set_ne _ _ hqp]; exact hpb', hd⟩

theorem buildLoop_invariant :
    ∀ (items : List InfoItem) (heap : Heap) (i : Nat) (root? : Option Nat)
      (nl : List Nat) (ts : TreeState),
      HeapInv heap →
      (∀ n, n ∈ nl → n < heap.length) →
      (root? = none → heap = []) →
      (∀ r, root? = some r → r = 0 ∧ heap ≠ []) →
      (i = 0 → heap = []) →
      buildLoop heap i root? nl items = .ok (some ts) →
      HeapInv ts.heap ∧ ts.root = 0 ∧ ts.heap ≠ [] := by
  intro items
  induction items with
  | nil =>
    intro heap i root? nl ts hInv _ _ hSome _ hrun
    cases root? with
    | none => simp [buildLoop] at hrun
    | some r =>
      simp only [buildLoop, Option.map_some', Except.ok.injEq,
        Option.some.injEq] at hrun
      obtain ⟨hr, hne⟩ := hSome r rfl
      subst hrun
      exact ⟨hInv, hr, hne⟩
  | cons item rest ih =>
    intro heap i root? nl ts hInv hNl hNone hSome hI0 hrun
    rw [buildLoop] at hrun
    by_cases hcond : (i == 0 && item.resource_type == "Document" &&
        item.parent_url == "" && item.parent_source == "root") = true
    · rw [if_pos hcond] at hrun
      have hi0 : i = 0 := by
        simp only [Bool.and_eq_true, beq_iff_eq] at hcond
        exact Nat.eq_of_beq_eq_true (by simpa using hcond.1.1.1)
      have hheap : heap = [] := hI0 hi0
      subst hheap
      simp only [newNode, List.length_nil, List.nil_append] at hrun
      refine ih _ (i + 1) (some 0) (nl ++ [0]) ts
        (heapInv_root item.url item.parent_source item.resource_type 0
          item.timestamp) ?_ (fun h => by cases h) ?_
        (fun h => absurd h (Nat.succ_ne_zero i)) hrun
      · intro n hn
        rcases List.mem_append.mp hn with hn | hn
        · exact absurd (hNl n hn) (by simp)
        · simp at hn
          simp [hn]
      · intro r hr
        cases hr
        exact ⟨rfl, by simp⟩
    · rw [if_neg hcond] at hrun
      cases hfind : nl.reverse.find? (parentScan heap item.parent_url) with
      | none =>
        rw [hfind] at hrun
        exact ih _ _ _ _ _ hInv hNl hNone hSome
          (fun h => absurd h (Nat.succ_ne_zero i)) hrun
      | some p =>
        rw [hfind] at hrun
        have hpmem : p ∈ nl := by
          have := List.mem_of_find?_eq_some hfind
          simpa using this
        have hplt : p < heap.length := hNl p hpmem
        obtain ⟨pb, hpb⟩ : ∃ pb, heap.get? p = some pb :=
          ⟨heap.get ⟨p, hplt⟩, List.get?_eq_get hplt⟩
        cases root? with
        | none =>
          exfalso
          have := hNone rfl
          subst this
          simp at hplt
        | some r =>
          obtain ⟨hr0, hne⟩ := hSome r rfl
          subst hr0
          simp only [newNode, hpb, add_node, List.get?_concat_length,
            List.get?_append hplt] at hrun
          refine ih _ _ _ _ _ ?_ ?_ (fun h => by cases h) ?_
            (fun h => absurd h (Nat.succ_ne_zero i)) hrun
          · exact heapInv_set_children _
              (heapInv_append heap hInv p pb hpb _ _ _ _ _ _) p pb
              (by rw [List.get?_append hplt]; exact hpb) _
          · intro n hn
            simp only [List.length_set, List.length_append, List.length_cons,
              List.length_nil]
            rcases List.mem_append.mp hn with hn | hn
            · have := hNl n hn
              omega
            · simp at hn
              omega
          · intro r' hr'
            cases hr'
            refine ⟨rfl, ?_⟩
            intro hempty
            have := congrArg List.length hempty
            simp [List.length_set] at this

/-- C7: in every tree produced by the Tree Builder, every non-root node
satisfies `depth(n) = depth(parent(n)) + 1`, and exactly one node — the root,
at index 0, with depth 1 — has no parent.  The proof is an induction over the
builder loop: the invariant is established by the root's `Node.__init__`
(depth 1, no parent) and preserved by every child `Node.__init__` (depth =
parent depth + 1) and `add_node` call (which only grows a `children_list`). -/
theorem build_redirection_tree_invariant (dom : String) (items : List InfoItem)
    (ts : TreeState) (h : build_redirection_tree dom items = .ok (some ts)) :
    ts.root = 0 ∧
    (∃ rb, ts.heap.get? 0 = some rb ∧ rb.parent = none ∧ rb.depth = 1) ∧
    (∀ j bn, ts.heap.get? j = some bn → (bn.parent = none ↔ j = 0)) ∧
    (∀ j bn, ts.heap.get? j = some bn → ∀ p, bn.parent = some p → p < j ∧
      ∃ pb, ts.heap.get? p = some pb ∧ bn.depth = pb.depth + 1) := by
  obtain ⟨hInv, hroot, hne⟩ := buildLoop_invariant items [] 0 none [] ts
    (fun j bn hj => by simp at hj) (by simp) (fun _ => rfl)
    (fun r hr => by cases hr) (fun _ => rfl) h
  refine ⟨hroot, ?_, ?_, ?_⟩
  · obtain ⟨rb, hrb⟩ : ∃ rb, ts.heap.get? 0 = some rb := by
      cases hh : ts.heap with
      | nil => exact absurd hh hne
      | cons x xs => exact ⟨x, by simp [hh]⟩
    obtain ⟨h1, h2, _⟩ := hInv 0 rb hrb
    exact ⟨rb, hrb, h1.mpr rfl, h2 rfl⟩
  · exact fun j bn hj => (hInv j bn hj).1
  · exact fun j bn hj => (hInv j bn hj).2.2

/-- Witness for C7: the invariant at a concretely built two-node tree. -/
theorem build_redirection_tree_invariant_witness :
    (⟨[⟨"http://a.com/", "", none, "root", "Document", 0, 0, 1, [1]⟩,
       ⟨"http://b.com/", "", some 0, "redirectResponse", "Document", 0, 5, 2, []⟩],
      0⟩ : TreeState).root = 0 ∧
    (∃ rb, (⟨[⟨"http://a.com/", "", none, "root", "Document", 0, 0, 1, [1]⟩,
       ⟨"http://b.com/", "", some 0, "redirectResponse", "Document", 0, 5, 2, []⟩],
      0⟩ : TreeState).heap.get? 0 = some rb ∧ rb.parent = none ∧ rb.depth = 1) ∧
    (∀ j bn, (⟨[⟨"http://a.com/", "", none, "root", "Document", 0, 0, 1, [1]⟩,
       ⟨"http://b.com/", "", some 0, "redirectResponse", "Document", 0, 5, 2, []⟩],
      0⟩ : TreeState).heap.get? j = some bn → (bn.parent = none ↔ j = 0)) ∧
    (∀ j bn, (⟨[⟨"http://a.com/", "", none, "root", "Document", 0, 0, 1, [1]⟩,
       ⟨"http://b.com/", "", some 0, "redirectResponse", "Document", 0, 5, 2, []⟩],
      0⟩ : TreeState).heap.get? j = some bn → ∀ p, bn.parent = some p → p < j ∧
      ∃ pb, (⟨[⟨"http://a.com/", "", none, "root", "Document", 0, 0, 1, [1]⟩,
       ⟨"http://b.com/", "", some 0, "redirectResponse", "Document", 0, 5, 2, []⟩],
      0⟩ : TreeState).heap.get? p = some pb ∧ bn.depth = pb.depth + 1) :=
  build_redirection_tree_invariant "a.com"
    [⟨"http://a.com/", "Document", "", "root", 0, "F"⟩,
     ⟨"http://b.com/", "Document", "http://a.com/", "redirectResponse", 5, "F"⟩]
    _ rfl

/-! ## C1: `get_initiator_node` -/

theorem sizeL_append (a b : List RTree) : sizeL (a ++ b) = sizeL a + sizeL b := by
  induction a with
  | nil => simp [sizeL]
  | cons t ts ih =>
    rw [List.cons_append, sizeL, sizeL, ih]
    omega

theorem sizeL_reverse (l : List RTree) : sizeL l.reverse = sizeL l := by
  induction l with
  | nil => rfl
  | cons t ts ih => simp only [List.reverse_cons, sizeL_append, sizeL, ih]; omega

theorem size_pos (t : RTree) : 0 < RTree.size t := by
  match t with
  | .mk d cs => simp only [RTree.size]; omega

mutual
theorem mem_pyorderI (x : NData) : ∀ t : RTree, x ∈ pyorderI t ↔ x ∈ allNodes t
  | .mk d cs => by
    simp only [pyorderI, allNodes, List.mem_cons]
    exact or_congr Iff.rfl (mem_pyorderIL x cs)

theorem mem_pyorderIL (x : NData) : ∀ l : List RTree, x ∈ pyorderIL l ↔ x ∈ allNodesL l
  | [] => Iff.rfl
  | t :: ts => by
    simp only [pyorderIL, allNodesL, List.mem_append]
    rw [mem_pyorderI x t, mem_pyorderIL x ts]
    exact Or.comm
end

theorem pyorderIL_eq (l : List RTree) :
    pyorderIL l = (l.reverse.map pyorderI).join := by
  induction l with
  | nil => rfl
  | cons t ts ih =>
    simp only [pyorderIL, List.reverse_cons, List.map_append, List.join_append, ih]
    simp

/-- The collection loop of `get_initiator_node` computes the filter of the
traversal order, given fuel at least the stack size. -/
theorem initCollect_eq (url : String) (due : Int) :
    ∀ fuel stack acc, sizeL stack ≤ fuel →
      initCollect url due fuel stack acc =
        acc ++ ((stack.map pyorderI).join).filter
          (fun d => url_cmp url d.url && decide (d.timestamp ≤ due)) := by
  intro fuel
  induction fuel with
  | zero =>
    intro stack acc h
    cases stack with
    | nil => simp [initCollect]
    | cons t rest =>
      exfalso
      have := size_pos t
      simp only [sizeL] at h
      omega
  | succ n ih =>
    intro stack acc h
    cases stack with
    | nil => simp [initCollect]
    | cons t rest =>
      match t with
      | .mk d cs =>
        rw [initCollect, ih (cs.reverse ++ rest) _ (by
          simp only [sizeL, RTree.size, sizeL_append, sizeL_reverse] at h ⊢
          omega)]
        cases hP : (url_cmp url d.url && decide (d.timestamp ≤ due)) with
        | true =>
          simp [pyorderI, pyorderIL_eq, List.map_append, List.join_append,
            List.filter_append, List.filter_cons, hP]
        | false =>
          simp [pyorderI, pyorderIL_eq, List.map_append, List.join_append,
            List.filter_append, List.filter_cons, hP]

/-- The selection loop: the result is drawn from the candidates, its time
difference never exceeds the running best's, it is minimal among candidates
that are not the base node, and it can only *be* the base-identity node if it
was already the running best. -/
theorem initSelect_spec (due : Int) (baseNid : Nat) :
    ∀ (cs : List NData) (cur : NData),
      (initSelect due baseNid cur cs = cur ∨ initSelect due baseNid cur cs ∈ cs) ∧
      due - (initSelect due baseNid cur cs).timestamp ≤ due - cur.timestamp ∧
      (∀ c ∈ cs, c.nid ≠ baseNid →
        due - (initSelect due baseNid cur cs).timestamp ≤ due - c.timestamp) ∧
      ((initSelect due baseNid cur cs).nid = baseNid →
        initSelect due baseNid cur cs = cur) := by
  intro cs
  induction cs with
  | nil => intro cur; simp [initSelect]
  | cons c cs ih =>
    intro cur
    rw [initSelect]
    by_cases himp : due - c.timestamp < due - cur.timestamp
    · rw [if_pos himp]
      by_cases hbase : (c.nid == baseNid) = true
      · rw [if_pos hbase]
        obtain ⟨i1, i2, i3, i4⟩ := ih cur
        refine ⟨?_, i2, ?_, i4⟩
        · rcases i1 with h | h
          · exact Or.inl h
          · exact Or.inr (List.mem_cons_of_mem _ h)
        · intro x hx hxb
          rcases List.mem_cons.mp hx with rfl | hx
          · exact absurd (by simpa using hbase) hxb
          · exact i3 x hx hxb
      · rw [if_neg hbase]
        obtain ⟨i1, i2, i3, i4⟩ := ih c
        refine ⟨?_, le_trans i2 (le_of_lt himp), ?_, ?_⟩
        · rcases i1 with h | h
          · exact Or.inr (by simp [h])
          · exact Or.inr (List.mem_cons_of_mem _ h)
        · intro x hx hxb
          rcases List.mem_cons.mp hx with rfl | hx
          · exact i2
          · exact i3 x hx hxb
        · intro hb
          exfalso
          have hres := i4 hb
          rw [hres] at hb
          exact (by simpa using hbase : ¬ c.nid = baseNid) hb
    · rw [if_neg himp]
      obtain ⟨i1, i2, i3, i4⟩ := ih cur
      refine ⟨?_, i2, ?_, i4⟩
      · rcases i1 with h | h
        · exact Or.inl h
        · exact Or.inr (List.mem_cons_of_mem _ h)
      · intro x hx hxb
        rcases List.mem_cons.mp hx with rfl | hx
        · exact le_trans i2 (not_lt.mp himp)
        · exact i3 x hx hxb

/-- C1 (amended): whenever `get_initiator_node` returns a node `r`, `r` is a
node of the tree matching `initiatorURL` (fragment ignored) with timestamp ≤
the base node's; among all such candidate nodes *other than the base node*,
none has a strictly smaller time difference; and `r` can be the base node
itself only when the base node is the first candidate in traversal order (and
nothing strictly closer follows) — the original claim's "never baseNode" is
false because the selection loop initializes with the first candidate without
excluding the base node.  A result exists whenever any candidate exists. -/
theorem get_initiator_node_characterization (t : RTree) (url : String)
    (base : NData) :
    (∀ r, get_initiator_node t url base = some r →
      (r ∈ allNodes t ∧ url_cmp url r.url = true ∧ r.timestamp ≤ base.timestamp) ∧
      (∀ d ∈ allNodes t, url_cmp url d.url = true → d.timestamp ≤ base.timestamp →
        d.nid ≠ base.nid →
        base.timestamp - r.timestamp ≤ base.timestamp - d.timestamp) ∧
      (r.nid = base.nid →
        ((pyorderI t).filter fun d =>
          url_cmp url d.url && decide (d.timestamp ≤ base.timestamp)).head? =
          some r)) ∧
    ((∃ d, d ∈ allNodes t ∧ url_cmp url d.url = true ∧
        d.timestamp ≤ base.timestamp) →
      ∃ r, get_initiator_node t url base = some r) := by
  have hcands : initCollect url base.timestamp (RTree.size t) [t] [] =
      (pyorderI t).filter
        (fun d => url_cmp url d.url && decide (d.timestamp ≤ base.timestamp)) := by
    rw [initCollect_eq url base.timestamp (RTree.size t) [t] []
      (by simp [sizeL])]
    simp
  constructor
  · intro r hr
    simp only [get_initiator_node, hcands] at hr
    cases hfil : (pyorderI t).filter
        (fun d => url_cmp url d.url && decide (d.timestamp ≤ base.timestamp)) with
    | nil => rw [hfil] at hr; cases hr
    | cons c0 rest =>
      rw [hfil] at hr
      simp only [Option.some.injEq] at hr
      obtain ⟨s1, s2, s3, s4⟩ := initSelect_spec base.timestamp base.nid rest c0
      rw [hr] at s1 s2 s3 s4
      have hrmem : r ∈ (pyorderI t).filter
          (fun d => url_cmp url d.url && decide (d.timestamp ≤ base.timestamp)) := by
        rw [hfil]
        rcases s1 with h | h
        · simp [h]
        · exact List.mem_cons_of_mem _ h
      obtain ⟨hrord, hrP⟩ := List.mem_filter.mp hrmem
      simp only [Bool.and_eq_true, decide_eq_true_eq] at hrP
      refine ⟨⟨(mem_pyorderI r t).mp hrord, hrP.1, hrP.2⟩, ?_, ?_⟩
      · intro d hd hcmp hts hdb
        have hdmem : d ∈ (pyorderI t).filter
            (fun x => url_cmp url x.url && decide (x.timestamp ≤ base.timestamp)) :=
          List.mem_filter.mpr ⟨(mem_pyorderI d t).mpr hd, by simp [hcmp, hts]⟩
        rw [hfil] at hdmem
        rcases List.mem_cons.mp hdmem with rfl | hdmem
        · exact s2
        · exact s3 d hdmem hdb
      · intro hb
        rw [s4 hb]
        rfl
  · intro ⟨d, hd, hcmp, hts⟩
    have hdmem : d ∈ (pyorderI t).filter
        (fun x => url_cmp url x.url && decide (x.timestamp ≤ base.timestamp)) :=
      List.mem_filter.mpr ⟨(mem_pyorderI d t).mpr hd, by simp [hcmp, hts]⟩
    simp only [get_initiator_node, hcands]
    cases hfil : (pyorderI t).filter
        (fun x => url_cmp url x.url && decide (x.timestamp ≤ base.timestamp)) with
    | nil => rw [hfil] at hdmem; cases hdmem
    | cons c0 rest => exact ⟨_, rfl⟩

/-- C1 counterexample: `get_initiator_node` *does* return the base node
itself.  In the one-node tree whose root matches the initiator URL, calling
it with the root as base node returns that very node (same object identity),
contradicting "the returned node is never baseNode itself". -/
theorem get_initiator_node_returns_base :
    get_initiator_node
      (RTree.mk ⟨0, "http://a.com/", "", none, "root", "Document", 0, 0, 1⟩ [])
      "http://a.com/"
      ⟨0, "http://a.com/", "", none, "root", "Document", 0, 0, 1⟩ =
    some ⟨0, "http://a.com/", "", none, "root", "Document", 0, 0, 1⟩ := by
  decide

/-- Witness for the amended C1 at a concrete two-node tree: the root (url
`"a"`, timestamp 0) is returned as the initiator of its child (url `"b"`,
timestamp 5). -/
theorem get_initiator_node_characterization_witness :
    ((⟨0, "a", "", none, "root", "Document", 0, 0, 1⟩ : NData) ∈
        allNodes (RTree.mk ⟨0, "a", "", none, "root", "Document", 0, 0, 1⟩
          [RTree.mk ⟨1, "b", "", some 0, "script", "Document", 0, 5, 2⟩ []]) ∧
      url_cmp "a" (⟨0, "a", "", none, "root", "Document", 0, 0, 1⟩ : NData).url =
        true ∧
      (⟨0, "a", "", none, "root", "Document", 0, 0, 1⟩ : NData).timestamp ≤
        (⟨1, "b", "", some 0, "script", "Document", 0, 5, 2⟩ : NData).timestamp) ∧
    (∃ r, get_initiator_node
      (RTree.mk ⟨0, "a", "", none, "root", "Document", 0, 0, 1⟩
        [RTree.mk ⟨1, "b", "", some 0, "script", "Document", 0, 5, 2⟩ []])
      "a" ⟨1, "b", "", some 0, "script", "Document", 0, 5, 2⟩ = some r) :=
  ⟨((get_initiator_node_characterization
      (RTree.mk ⟨0, "a", "", none, "root", "Document", 0, 0, 1⟩
        [RTree.mk ⟨1, "b", "", some 0, "script", "Document", 0, 5, 2⟩ []])
      "a" ⟨1, "b", "", some 0, "script", "Document", 0, 5, 2⟩).1
      ⟨0, "a", "", none, "root", "Document", 0, 0, 1⟩ (by decide)).1,
   (get_initiator_node_characterization
      (RTree.mk ⟨0, "a", "", none, "root", "Document", 0, 0, 1⟩
        [RTree.mk ⟨1, "b", "", some 0, "script", "Document", 0, 5, 2⟩ []])
      "a" ⟨1, "b", "", some 0, "script", "Document", 0, 5, 2⟩).2
      ⟨⟨0, "a", "", none, "root", "Document", 0, 0, 1⟩, by decide, by decide,
        by decide⟩⟩

/-! ## C6: `get_intermediaries` -/

theorem mem_allNodesL (x : NData) :
    ∀ l : List RTree, x ∈ allNodesL l ↔ ∃ c ∈ l, x ∈ allNodes c := by
  intro l
  induction l with
  | nil => simp [allNodesL]
  | cons t ts ih =>
    simp only [allNodesL, List.mem_append, ih]
    constructor
    · rintro (h | ⟨c, hc, hx⟩)
      · exact ⟨t, by simp, h⟩
      · exact ⟨c, List.mem_cons_of_mem _ hc, hx⟩
    · rintro ⟨c, hc, hx⟩
      rcases List.mem_cons.mp hc with rfl | hc
      · exact Or.inl hx
      · exact Or.inr ⟨c, hc, hx⟩

theorem mem_edgesOfL (e : NData × NData) :
    ∀ l : List RTree, e ∈ edgesOfL l ↔ ∃ c ∈ l, e ∈ edgesOf c := by
  intro l
  induction l with
  | nil => simp [edgesOfL]
  | cons t ts ih =>
    simp only [edgesOfL, List.mem_append, ih]
    constructor
    · rintro (h | ⟨c, hc, hx⟩)
      · exact ⟨t, by simp, h⟩
      · exact ⟨c, List.mem_cons_of_mem _ hc, hx⟩
    · rintro ⟨c, hc, hx⟩
      rcases List.mem_cons.mp hc with rfl | hc
      · exact Or.inl hx
      · exact Or.inr ⟨c, hc, hx⟩

theorem wfAuxL_mem : ∀ l : List RTree, wfAuxL l = true → ∀ c ∈ l, wfAux c = true := by
  intro l
  induction l with
  | nil => intro _ c hc; cases hc
  | cons t ts ih =>
    intro h c hc
    simp only [wfAuxL, Bool.and_eq_true] at h
    rcases List.mem_cons.mp hc with rfl | hc
    · exact h.1
    · exact ih h.2 c hc

theorem self_mem_allNodes (t : RTree) : t.data ∈ allNodes t := by
  match t with
  | .mk d cs => simp [allNodes, RTree.data]

mutual
/-- In a well-formed tree every node is the root or has a structural parent
whose identity and depth its own fields record. -/
theorem wf_parent_ex : ∀ (t : RTree), wfAux t = true → ∀ x ∈ allNodes t,
    x = t.data ∨ ∃ p, p ∈ allNodes t ∧ (p, x) ∈ edgesOf t ∧
      x.parent = some p.nid ∧ x.depth = p.depth + 1
  | .mk d cs => by
    intro hwf x hx
    simp only [wfAux, Bool.and_eq_true] at hwf
    rcases List.mem_cons.mp hx with rfl | hx
    · exact Or.inl rfl
    · right
      rcases wf_parent_exL cs hwf.2 x hx with ⟨c, hc, rfl⟩ | ⟨p, hp, he, h2, h3⟩
      · have hch := hwf.1
        simp only [wfChildren, List.all_eq_true] at hch
        obtain ⟨hpar, hdep⟩ := by simpa [Bool.and_eq_true] using hch c hc
        refine ⟨d, by simp [allNodes], ?_, hpar, hdep⟩
        simp only [edgesOf, List.mem_append]
        exact Or.inl (List.mem_map_of_mem _ hc)
      · refine ⟨p, ?_, ?_, h2, h3⟩
        · simp only [allNodes, List.mem_cons]
          exact Or.inr hp
        · simp only [edgesOf, List.mem_append]
          exact Or.inr he

theorem wf_parent_exL : ∀ (l : List RTree), wfAuxL l = true → ∀ x ∈ allNodesL l,
    (∃ c ∈ l, x = c.data) ∨ ∃ p, p ∈ allNodesL l ∧ (p, x) ∈ edgesOfL l ∧
      x.parent = some p.nid ∧ x.depth = p.depth + 1
  | [] => by intro _ x hx; cases hx
  | c :: ls => by
    intro hwf x hx
    simp only [wfAuxL, Bool.and_eq_true] at hwf
    rcases List.mem_append.mp hx with hx | hx
    · rcases wf_parent_ex c hwf.1 x hx with h | ⟨p, hp, he, h2, h3⟩
      · exact Or.inl ⟨c, by simp, h⟩
      · refine Or.inr ⟨p, ?_, ?_, h2, h3⟩
        · simp only [allNodesL, List.mem_append]; exact Or.inl hp
        · simp only [edgesOfL, List.mem_append]; exact Or.inl he
    · rcases wf_parent_exL ls hwf.2 x hx with ⟨c', hc', h⟩ | ⟨p, hp, he, h2, h3⟩
      · exact Or.inl ⟨c', List.mem_cons_of_mem _ hc', h⟩
      · refine Or.inr ⟨p, ?_, ?_, h2, h3⟩
        · simp only [allNodesL, List.mem_append]; exact Or.inr hp
        · simp only [edgesOfL, List.mem_append]; exact Or.inr he
end

theorem size_mem_le : ∀ (l : List RTree), ∀ c ∈ l, RTree.size c ≤ sizeL l := by
  intro l
  induction l with
  | nil => intro c hc; cases hc
  | cons t ts ih =>
    intro c hc
    rcases List.mem_cons.mp hc with rfl | hc
    · simp only [sizeL]
      omega
    · have := ih c hc
      simp only [sizeL]
      omega

mutual
/-- In a well-formed subtree every depth is bounded by the subtree root's
depth plus the node count below it. -/
theorem depth_le_aux : ∀ (t : RTree), wfAux t = true → ∀ x ∈ allNodes t,
    x.depth ≤ t.data.depth + (RTree.size t - 1)
  | .mk d cs => by
    intro hwf x hx
    simp only [wfAux, Bool.and_eq_true] at hwf
    rcases List.mem_cons.mp hx with rfl | hx
    · exact Nat.le_add_right _ _
    · obtain ⟨c, hc, hxc, hb⟩ := depth_le_auxL cs hwf.2 x hx
      have hch := hwf.1
      simp only [wfChildren, List.all_eq_true] at hch
      obtain ⟨-, hdep⟩ := by simpa [Bool.and_eq_true] using hch c hc
      have hsz : RTree.size c ≤ sizeL cs := size_mem_le cs c hc
      have hszc := size_pos c
      have hsize : RTree.size (RTree.mk d cs) = 1 + sizeL cs := rfl
      rw [hdep] at hb
      show x.depth ≤ d.depth + (RTree.size (RTree.mk d cs) - 1)
      omega

theorem depth_le_auxL : ∀ (l : List RTree), wfAuxL l = true → ∀ x ∈ allNodesL l,
    ∃ c ∈ l, x ∈ allNodes c ∧ x.depth ≤ c.data.depth + (RTree.size c - 1)
  | [] => by intro _ x hx; cases hx
  | c :: ls => by
    intro hwf x hx
    simp only [wfAuxL, Bool.and_eq_true] at hwf
    rcases List.mem_append.mp hx with hx | hx
    · exact ⟨c, by simp, hx, depth_le_aux c hwf.1 x hx⟩
    · obtain ⟨c', hc', hxc, hb⟩ := depth_le_auxL ls hwf.2 x hx
      exact ⟨c', List.mem_cons_of_mem _ hc', hxc, hb⟩
end

theorem depth_le_size (t : RTree) (hwf : treeWF t = true) :
    ∀ x ∈ allNodes t, x.depth ≤ RTree.size t := by
  intro x hx
  simp only [treeWF, Bool.and_eq_true, beq_iff_eq] at hwf
  have := depth_le_aux t hwf.2 x hx
  rw [hwf.1.1.2] at this
  have := size_pos t
  omega

theorem nid_inj (t : RTree) (hwf : treeWF t = true) :
    ∀ x ∈ allNodes t, ∀ y ∈ allNodes t, x.nid = y.nid → x = y := by
  simp only [treeWF, Bool.and_eq_true, beq_iff_eq, decide_eq_true_eq] at hwf
  exact List.inj_on_of_nodup_map hwf.1.2

theorem findN_eq (t : RTree) (hwf : treeWF t = true) (p : NData)
    (hp : p ∈ allNodes t) : findN t p.nid = some p := by
  unfold findN
  cases hf : (allNodes t).find? (fun d => d.nid == p.nid) with
  | none =>
    exfalso
    have := List.find?_eq_none.mp hf p hp
    simp at this
  | some q =>
    have hq1 : q.nid = p.nid := by
      have := List.find?_some hf
      simpa using this
    have hq2 : q ∈ allNodes t := List.mem_of_find?_eq_some hf
    rw [nid_inj t hwf q hq2 p hp hq1]

theorem depth_pos (t : RTree) (hwf : treeWF t = true) :
    ∀ x ∈ allNodes t, 1 ≤ x.depth := by
  intro x hx
  have hwf' := hwf
  simp only [treeWF, Bool.and_eq_true, beq_iff_eq] at hwf'
  rcases wf_parent_ex t hwf'.2 x hx with rfl | ⟨p, _, _, _, h3⟩
  · rw [hwf'.1.1.2]
  · omega

/-- The backtracking loop, run from a node of a well-formed tree with the
root as target and enough fuel, succeeds and produces exactly the ancestor
chain: it starts at the node, ends at the root, and every consecutive pair is
a child followed by its structural parent. -/
theorem backtrack_spec (t : RTree) (hwf : treeWF t = true) :
    ∀ fuel (x : NData), x ∈ allNodes t → x.depth ≤ fuel →
      (backtrack t t.data.nid fuel (some x)).2 = true ∧
      (backtrack t t.data.nid fuel (some x)).1.head? = some x ∧
      (backtrack t t.data.nid fuel (some x)).1.getLast? = some t.data ∧
      List.Chain' (fun c p => (p, c) ∈ edgesOf t)
        (backtrack t t.data.nid fuel (some x)).1 := by
  intro fuel
  induction fuel with
  | zero =>
    intro x hx hd
    exact absurd hd (by have := depth_pos t hwf x hx; omega)
  | succ n ih =>
    intro x hx hd
    rw [backtrack]
    by_cases heq : (x.nid == t.data.nid) = true
    · rw [if_pos heq]
      have hxr : x = t.data :=
        nid_inj t hwf x hx t.data (self_mem_allNodes t) (by simpa using heq)
      exact ⟨rfl, rfl, by simp [hxr], by simp⟩
    · rw [if_neg heq]
      have hwf2 : wfAux t = true := by
        simp only [treeWF, Bool.and_eq_true] at hwf; exact hwf.2
      rcases wf_parent_ex t hwf2 x hx with hroot | ⟨p, hp, hedge, hpar, hdep⟩
      · exfalso
        rw [hroot] at heq
        exact heq (beq_self_eq_true _)
      · rw [hpar]
        simp only [Option.some_bind]
        rw [findN_eq t hwf p hp]
        obtain ⟨i1, i2, i3, i4⟩ := ih p hp (by omega)
        refine ⟨i1, rfl, ?_, ?_⟩
        · cases hl : (backtrack t t.data.nid n (some p)).1 with
          | nil => rw [hl] at i2; cases i2
          | cons y ys =>
            rw [hl] at i3
            simp only [hl, List.getLast?_cons_cons]
            exact i3
        · cases hl : (backtrack t t.data.nid n (some p)).1 with
          | nil => rw [hl] at i2; cases i2
          | cons y ys =>
            rw [hl] at i2 i4
            have hyp : y = p := by simpa using i2
            subst hyp
            exact List.chain'_cons.mpr ⟨hedge, i4⟩

/-- If the backtracking loop from `y` hits `x` (returns `found`), then `y` is
a descendant-or-self of `x` along the tree's edges. -/
theorem backtrack_reaches (t : RTree) (hwf : treeWF t = true) (x : NData)
    (hx : x ∈ allNodes t) :
    ∀ fuel (y : NData), y ∈ allNodes t →
      (backtrack t x.nid fuel (some y)).2 = true →
      Relation.ReflTransGen (fun p c => (p, c) ∈ edgesOf t) x y := by
  intro fuel
  induction fuel with
  | zero =>
    intro y hy h
    simp [backtrack] at h
  | succ n ih =>
    intro y hy h
    rw [backtrack] at h
    by_cases heq : (y.nid == x.nid) = true
    · have hxy : y = x := nid_inj t hwf y hy x hx (by simpa using heq)
      rw [hxy]
    · rw [if_neg heq] at h
      have hwf2 : wfAux t = true := by
        simp only [treeWF, Bool.and_eq_true] at hwf; exact hwf.2
      rcases wf_parent_ex t hwf2 y hy with hroot | ⟨p, hp, hedge, hpar, _⟩
      · exfalso
        have hpn : y.parent = none := by
          rw [hroot]
          have := hwf
          simp only [treeWF, Bool.and_eq_true, beq_iff_eq] at this
          exact this.1.1.1
        rw [hpn] at h
        simp [backtrack] at h
      · rw [hpar] at h
        simp only [Option.some_bind] at h
        rw [findN_eq t hwf p hp] at h
        have h2 : (backtrack t x.nid n (some p)).2 = true := by simpa using h
        exact (ih p hp h2).tail hedge

/-- With two `Node` arguments the search loop never changes its state. -/
theorem interSearch_id (su eu : String) :
    ∀ fuel stack (s e : NData),
      interSearch su eu fuel stack (some s) (some e) = (some s, some e) := by
  intro fuel
  induction fuel with
  | zero =>
    intro stack s e
    cases stack with
    | nil => rfl
    | cons t rest => rfl
  | succ n ih =>
    intro stack s e
    cases stack with
    | nil => rfl
    | cons t rest =>
      match t with
      | .mk d cs => exact ih (cs ++ rest) s e

/-- `get_intermediaries` with two `Node` arguments reduces to the
backtracking walk (redirection_tree.py:306-317). -/
theorem get_intermediaries_pnode (t : RTree) (s e : NData) :
    get_intermediaries t (.pnode s) (.pnode e) =
      (if (backtrack t s.nid (RTree.size t + 1) (some e)).2 then
        (backtrack t s.nid (RTree.size t + 1) (some e)).1.reverse else []) := by
  simp only [get_intermediaries, PyArg.falsy, Bool.and_self, Bool.false_eq_true,
    if_false]
  rw [interSearch_id]

/-- **C6** (confirmed).  For every well-formed built tree:
(a) for every node `e` of the tree, `get_intermediaries(root, e)` returns a
non-empty sequence starting at the root and ending at `e` in which every
consecutive pair is a parent→child edge of the tree; and
(b) for nodes `x, y` of the tree with `y` not a descendant-or-self of `x`
along parent→child edges, `get_intermediaries(x, y)` returns the empty
sequence (redirection_tree.py:251-319). -/
theorem get_intermediaries_path_correct (t : RTree) (hwf : treeWF t = true) :
    (∀ e ∈ allNodes t,
      get_intermediaries t (.pnode t.data) (.pnode e) ≠ [] ∧
      (get_intermediaries t (.pnode t.data) (.pnode e)).head? = some t.data ∧
      (get_intermediaries t (.pnode t.data) (.pnode e)).getLast? = some e ∧
      List.Chain' (fun p c => (p, c) ∈ edgesOf t)
        (get_intermediaries t (.pnode t.data) (.pnode e))) ∧
    (∀ x ∈ allNodes t, ∀ y ∈ allNodes t,
      ¬ Relation.ReflTransGen (fun p c => (p, c) ∈ edgesOf t) x y →
      get_intermediaries t (.pnode x) (.pnode y) = []) := by
  constructor
  · intro e he
    rw [get_intermediaries_pnode]
    obtain ⟨f1, f2, f3, f4⟩ := backtrack_spec t hwf (RTree.size t + 1) e he
      (by have := depth_le_size t hwf e he; omega)
    rw [if_pos f1]
    refine ⟨?_, ?_, ?_, ?_⟩
    · intro h0
      rw [List.reverse_eq_nil_iff] at h0
      rw [h0] at f2; cases f2
    · rw [List.head?_reverse]; exact f3
    · rw [List.getLast?_reverse]; exact f2
    · rw [List.chain'_reverse]; exact f4
  · intro x hx y hy hnd
    rw [get_intermediaries_pnode]
    cases hb : (backtrack t x.nid (RTree.size t + 1) (some y)).2 with
    | false => simp [hb]
    | true => exact absurd (backtrack_reaches t hwf x hx _ y hy hb) hnd

/-- Witness for C6 at a concrete two-node tree: the path from the root to its
child ends at the child, and the path from the child up to the root (the root
is not a descendant of the child) is empty. -/
theorem get_intermediaries_path_correct_witness :
    (get_intermediaries
        (RTree.mk ⟨0, "http://a.com/", "", none, "root", "Document", 0, 0, 1⟩
          [RTree.mk
            ⟨1, "http://b.com/", "", some 0, "http://a.com/", "Document", 0, 5, 2⟩
            []])
        (.pnode ⟨0, "http://a.com/", "", none, "root", "Document", 0, 0, 1⟩)
        (.pnode
          ⟨1, "http://b.com/", "", some 0, "http://a.com/", "Document", 0, 5,
            2⟩)).getLast? =
      some ⟨1, "http://b.com/", "", some 0, "http://a.com/", "Document", 0, 5, 2⟩ ∧
    get_intermediaries
        (RTree.mk ⟨0, "http://a.com/", "", none, "root", "Document", 0, 0, 1⟩
          [RTree.mk
            ⟨1, "http://b.com/", "", some 0, "http://a.com/", "Document", 0, 5, 2⟩
            []])
        (.pnode
          ⟨1, "http://b.com/", "", some 0, "http://a.com/", "Document", 0, 5, 2⟩)
        (.pnode ⟨0, "http://a.com/", "", none, "root", "Document", 0, 0, 1⟩) =
      [] := by
  have h := get_intermediaries_path_correct
    (RTree.mk ⟨0, "http://a.com/", "", none, "root", "Document", 0, 0, 1⟩
      [RTree.mk
        ⟨1, "http://b.com/", "", some 0, "http://a.com/", "Document", 0, 5, 2⟩
        []])
    (by decide)
  refine ⟨(h.1 ⟨1, "http://b.com/", "", some 0, "http://a.com/", "Document",
      0, 5, 2⟩ (by decide)).2.2.1,
    h.2 ⟨1, "http://b.com/", "", some 0, "http://a.com/", "Document", 0, 5, 2⟩
      (by decide)
      ⟨0, "http://a.com/", "", none, "root", "Document", 0, 0, 1⟩ (by decide) ?_⟩
  intro hrt
  rcases Relation.ReflTransGen.cases_head hrt with heq | ⟨z, hz, _⟩
  · exact absurd heq (by decide)
  · have he : edgesOf
        (RTree.mk ⟨0, "http://a.com/", "", none, "root", "Document", 0, 0, 1⟩
          [RTree.mk
            ⟨1, "http://b.com/", "", some 0, "http://a.com/", "Document", 0, 5, 2⟩
            []]) =
        [(⟨0, "http://a.com/", "", none, "root", "Document", 0, 0, 1⟩,
          ⟨1, "http://b.com/", "", some 0, "http://a.com/", "Document", 0, 5,
            2⟩)] := rfl
    rw [he, List.mem_singleton] at hz
    have hnid : (1 : Nat) = 0 := congrArg (fun p => p.1.nid) hz
    exact absurd hnid (by decide)

/-! ## C3: `extract_target_entries` crash discard -/

/-- Once the gate is open, a crash record at the head of the remaining lines
discards everything (info_extraction.py:92-95). -/
theorem extLoop_crash_head (su : String) (methods : List String)
    (hm : methods.contains "Network.requestWillBeSent" = true)
    (acc : List TEntry) (post : List LogLine)
    (fI lI rt rU : String) (uf rr : Option String) (ini : Initiator)
    (rid : String) (ts : Int) :
    extLoop su methods true acc
      (⟨.requestWillBeSent errorPlaceholder fI lI rt rU uf rr ini rid, ts⟩ ::
        post) = [] := by
  have hmem : "Network.requestWillBeSent" ∈ methods := by simpa using hm
  simp [extLoop, Entry.method, hmem]

/-- With the gate open, one loop iteration either stops with `[]` (crash) or
recurses on the tail with some accumulated list. -/
theorem extLoop_true_step (su : String) (methods : List String)
    (l : LogLine) (rest : List LogLine) (acc : List TEntry) :
    extLoop su methods true acc (l :: rest) = [] ∨
    ∃ acc', extLoop su methods true acc (l :: rest) =
      extLoop su methods true acc' rest := by
  obtain ⟨e, ts⟩ := l
  by_cases hc : methods.contains e.method = true
  · have hcm : e.method ∈ methods := by simpa using hc
    cases e with
    | requestWillBeSent dU fI lI rt rU uf rr ini rid =>
      by_cases hd : (dU == errorPlaceholder) = true
      · left; simp [extLoop, hcm, hd]
      · right
        exact ⟨acc ++ [⟨.requestWillBeSent dU fI lI rt rU uf rr ini rid, ts⟩],
          by simp [extLoop, hcm, hd]⟩
    | responseReceived rid headers =>
      by_cases hr : (headers.any fun p => p.1 == "Refresh") = true
      · right
        exact ⟨acc ++ [⟨.responseReceived rid headers, ts⟩],
          by simp [extLoop, hcm, hr]⟩
      · right; exact ⟨acc, by simp [extLoop, hcm, hr]⟩
    | loadingFailed rid =>
      right
      exact ⟨dropLastFailed rid acc ++ [⟨.loadingFailed rid, ts⟩],
        by simp [extLoop, hcm]⟩
    | frameAttached a b =>
      right; exact ⟨acc ++ [⟨.frameAttached a b, ts⟩], by simp [extLoop, hcm]⟩
    | frameDetached a =>
      right; exact ⟨acc ++ [⟨.frameDetached a, ts⟩], by simp [extLoop, hcm]⟩
    | navigatedWithinDocument a b =>
      right
      exact ⟨acc ++ [⟨.navigatedWithinDocument a b, ts⟩], by simp [extLoop, hcm]⟩
    | frameRequestedNavigation a b c =>
      right
      exact ⟨acc ++ [⟨.frameRequestedNavigation a b c, ts⟩],
        by simp [extLoop, hcm]⟩
    | downloadWillBegin a =>
      right; exact ⟨acc ++ [⟨.downloadWillBegin a, ts⟩], by simp [extLoop, hcm]⟩
  · have hcm : e.method ∉ methods := by simpa using hc
    right; exact ⟨acc, by simp [extLoop, hcm]⟩

/-- With the gate open, a crash record anywhere in the remaining lines makes
the loop return `[]`. -/
theorem extLoop_true_crash (su : String) (methods : List String)
    (hm : methods.contains "Network.requestWillBeSent" = true)
    (c : LogLine)
    (hc : ∃ fI lI rt rU uf rr ini rid,
      c.message = .requestWillBeSent errorPlaceholder fI lI rt rU uf rr ini
        rid) :
    ∀ pre (acc : List TEntry) post,
      extLoop su methods true acc (pre ++ c :: post) = [] := by
  intro pre
  induction pre with
  | nil =>
    intro acc post
    obtain ⟨fI, lI, rt, rU, uf, rr, ini, rid, hmsg⟩ := hc
    obtain ⟨e, ts⟩ := c
    have he : e = .requestWillBeSent errorPlaceholder fI lI rt rU uf rr ini
        rid := hmsg
    subst he
    exact extLoop_crash_head su methods hm acc post fI lI rt rU uf rr ini rid
      ts
  | cons l pre' ih =>
    intro acc post
    rcases extLoop_true_step su methods l (pre' ++ c :: post) acc with h |
        ⟨acc', h⟩
    · rw [List.cons_append]; exact h
    · rw [List.cons_append, h]; exact ih acc' post

/-- A line filtered out by the session-start gate (info_extraction.py:76-84)
is skipped: same state, same accumulated list. -/
theorem extLoop_skip_step (su : String) (methods : List String) (e : Entry)
    (ts : Int) (rest : List LogLine) (acc : List TEntry)
    (hg : (match e with
        | .requestWillBeSent _ _ _ _ requestUrl _ _ _ _ => requestUrl != su
        | _ => true) = true) :
    extLoop su methods false acc ((⟨e, ts⟩ : LogLine) :: rest) =
      extLoop su methods false acc rest := by
  simp only [extLoop, Bool.not_false, Bool.true_and, hg, if_true]

/-- A line that passes the session-start gate is processed exactly as with
the gate already open. -/
theorem extLoop_open_step (su : String) (methods : List String) (e : Entry)
    (ts : Int) (rest : List LogLine) (acc : List TEntry)
    (hg : ¬ (match e with
        | .requestWillBeSent _ _ _ _ requestUrl _ _ _ _ => requestUrl != su
        | _ => true) = true) :
    extLoop su methods false acc ((⟨e, ts⟩ : LogLine) :: rest) =
      extLoop su methods true acc ((⟨e, ts⟩ : LogLine) :: rest) := by
  simp only [extLoop, Bool.not_false, Bool.true_and, Bool.not_true,
    Bool.false_and, Bool.false_eq_true, if_false]
  rw [if_neg hg]

/-- Full characterization of the crash discard: the crash record wipes the
session exactly when it is *processed*, i.e. when the gate is already open,
when it carries the session-start URL itself, or when some earlier record is
a request-sent for the start URL. -/
theorem extLoop_crash_gate (su : String) (methods : List String)
    (hm : methods.contains "Network.requestWillBeSent" = true)
    (c : LogLine)
    (hc : ∃ fI lI rt rU uf rr ini rid,
      c.message = .requestWillBeSent errorPlaceholder fI lI rt rU uf rr ini
        rid) :
    ∀ pre (hasF : Bool) (acc : List TEntry) post,
      (hasF = true ∨
       (∃ fI lI rt uf rr ini rid,
         c.message = .requestWillBeSent errorPlaceholder fI lI rt su uf rr ini
           rid) ∨
       (∃ l ∈ pre, ∃ dU fI lI rt uf rr ini rid,
         l.message = .requestWillBeSent dU fI lI rt su uf rr ini rid)) →
      extLoop su methods hasF acc (pre ++ c :: post) = [] := by
  have hmem : "Network.requestWillBeSent" ∈ methods := by simpa using hm
  intro pre
  induction pre with
  | nil =>
    intro hasF acc post hyp
    rcases hyp with h1 | h2 | h3
    · subst h1; exact extLoop_true_crash su methods hm c hc [] acc post
    · obtain ⟨fI, lI, rt, uf, rr, ini, rid, hmsg⟩ := h2
      obtain ⟨e, ts⟩ := c
      have he : e = .requestWillBeSent errorPlaceholder fI lI rt su uf rr ini
          rid := hmsg
      subst he
      cases hasF with
      | false => simp [extLoop, Entry.method, hmem]
      | true => simp [extLoop, Entry.method, hmem]
    · obtain ⟨l, hl, _⟩ := h3
      exact absurd hl (List.not_mem_nil l)
  | cons l pre' ih =>
    intro hasF acc post hyp
    cases hasF with
    | true => exact extLoop_true_crash su methods hm c hc (l :: pre') acc post
    | false =>
      obtain ⟨e, ts⟩ := l
      rcases hyp with h1 | h2 | ⟨l', hl', hxx⟩
      · cases h1
      · by_cases hg : (match e with
            | .requestWillBeSent _ _ _ _ requestUrl _ _ _ _ =>
              requestUrl != su
            | _ => true) = true
        · rw [List.cons_append,
            extLoop_skip_step su methods e ts (pre' ++ c :: post) acc hg]
          exact ih false acc post (Or.inr (Or.inl h2))
        · rw [List.cons_append,
            extLoop_open_step su methods e ts (pre' ++ c :: post) acc hg]
          have hfin := extLoop_true_crash su methods hm c hc
            (⟨e, ts⟩ :: pre') acc post
          rwa [List.cons_append] at hfin
      · rcases List.mem_cons.mp hl' with heq | hmem'
        · rw [heq] at hxx
          obtain ⟨dU, fI, lI, rt, uf, rr, ini, rid, hmsg⟩ := hxx
          have he : e = .requestWillBeSent dU fI lI rt su uf rr ini rid :=
            hmsg
          subst he
          rw [List.cons_append]
          by_cases hd : (dU == errorPlaceholder) = true
          · simp [extLoop, Entry.method, hmem, hd]
          · have hstep : extLoop su methods false acc
                ((⟨.requestWillBeSent dU fI lI rt su uf rr ini rid, ts⟩ :
                    LogLine) :: (pre' ++ c :: post)) =
                extLoop su methods true
                  (acc ++
                    [⟨.requestWillBeSent dU fI lI rt su uf rr ini rid, ts⟩])
                  (pre' ++ c :: post) := by
              simp [extLoop, Entry.method, hmem, hd]
            rw [hstep]
            exact extLoop_true_crash su methods hm c hc pre' _ post
        · clear hl'
          by_cases hg : (match e with
              | .requestWillBeSent _ _ _ _ requestUrl _ _ _ _ =>
                requestUrl != su
              | _ => true) = true
          · rw [List.cons_append,
              extLoop_skip_step su methods e ts (pre' ++ c :: post) acc hg]
            exact ih false acc post (Or.inr (Or.inr ⟨l', hmem', hxx⟩))
          · rw [List.cons_append,
              extLoop_open_step su methods e ts (pre' ++ c :: post) acc hg]
            have hfin := extLoop_true_crash su methods hm c hc
              (⟨e, ts⟩ :: pre') acc post
            rwa [List.cons_append] at hfin

/-- **C3** (corrected).  Amended claim: a crash record (request-sent with the
browser-error placeholder as document URL) discards the session's entire
normalized output — `extract_target_entries` returns `[]` — provided the
record is actually *processed*: either the crash record itself carries the
session-start URL `http://<domain>/`, or some record before it is a
request-sent for the session-start URL (which opens the `has_filtered` gate,
info_extraction.py:76-84).  The original "anywhere, regardless of what
preceded that record" is refuted by
`extract_target_entries_crash_before_start`: a crash record arriving before
the session-start record is silently skipped by the gate. -/
theorem extract_target_entries_crash_discard (domain_sample : String)
    (pre post : List LogLine) (c : LogLine)
    (hc : ∃ fI lI rt rU uf rr ini rid,
      c.message = .requestWillBeSent errorPlaceholder fI lI rt rU uf rr ini
        rid)
    (hcond : (∃ fI lI rt uf rr ini rid,
        c.message = .requestWillBeSent errorPlaceholder fI lI rt
          ("http://" ++ domain_sample ++ "/") uf rr ini rid) ∨
      (∃ l ∈ pre, ∃ dU fI lI rt uf rr ini rid,
        l.message = .requestWillBeSent dU fI lI rt
          ("http://" ++ domain_sample ++ "/") uf rr ini rid)) :
    extract_target_entries domain_sample (pre ++ c :: post) none = [] := by
  have hm : base_method_list.contains "Network.requestWillBeSent" = true := by
    decide
  simp only [extract_target_entries]
  exact extLoop_crash_gate ("http://" ++ domain_sample ++ "/")
    base_method_list hm c hc pre false [] post (Or.inr hcond)

/-- C3 counterexample to the original claim: a crash record that arrives
*before* the session-start record (and whose own request URL is not the
start URL) is skipped by the `has_filtered` gate, so the session still
yields a non-empty normalized list. -/
theorem extract_target_entries_crash_before_start :
    extract_target_entries "a.com"
      [⟨.requestWillBeSent errorPlaceholder "f1" "l1" "Document"
          "http://b.com/" none none ⟨"other", none, none⟩ "r1", 0⟩,
       ⟨.requestWillBeSent "http://a.com/" "f1" "l1" "Document"
          "http://a.com/" none none ⟨"other", none, none⟩ "r2", 1⟩] none =
      [⟨.requestWillBeSent "http://a.com/" "f1" "l1" "Document"
          "http://a.com/" none none ⟨"other", none, none⟩ "r2", 1⟩] := by
  decide

/-- Witness for the amended C3: a session-start record followed by a crash
record yields the empty output. -/
theorem extract_target_entries_crash_discard_witness :
    extract_target_entries "a.com"
      [⟨.requestWillBeSent "http://a.com/" "f1" "l1" "Document"
          "http://a.com/" none none ⟨"other", none, none⟩ "r2", 0⟩,
       ⟨.requestWillBeSent errorPlaceholder "f1" "l1" "Document"
          "http://b.com/" none none ⟨"other", none, none⟩ "r1", 1⟩] none =
      [] :=
  extract_target_entries_crash_discard "a.com"
    [⟨.requestWillBeSent "http://a.com/" "f1" "l1" "Document" "http://a.com/"
        none none ⟨"other", none, none⟩ "r2", 0⟩]
    []
    ⟨.requestWillBeSent errorPlaceholder "f1" "l1" "Document" "http://b.com/"
        none none ⟨"other", none, none⟩ "r1", 1⟩
    ⟨"f1", "l1", "Document", "http://b.com/", none, none,
      ⟨"other", none, none⟩, "r1", by decide⟩
    (Or.inr ⟨⟨.requestWillBeSent "http://a.com/" "f1" "l1" "Document"
        "http://a.com/" none none ⟨"other", none, none⟩ "r2", 0⟩,
      List.mem_singleton.mpr rfl,
      "http://a.com/", "f1", "l1", "Document", none, none,
      ⟨"other", none, none⟩, "r2", by decide⟩)

/-! ## C2: `get_parent_info` and unknown initiator types -/

/-- If the event loop consumes a prefix without breaking, running it on the
extended list continues from the reached state and index. -/
theorem piLoop_append (ys : List TEntry) :
    ∀ xs (i : Nat) (s s1 : PIState),
      piLoop i s xs = some (s1, false) →
      piLoop i s (xs ++ ys) = piLoop (i + xs.length) s1 ys := by
  intro xs
  induction xs with
  | nil =>
    intro i s s1 h
    simp only [piLoop, Option.some.injEq, Prod.mk.injEq, and_true] at h
    subst h
    simp
  | cons x xs ih =>
    intro i s s1 h
    cases hs : piStep i s x with
    | cont s2 =>
      rw [piLoop, hs] at h
      have h2 : piLoop (i + 1) s2 xs = some (s1, false) := h
      calc piLoop i s (x :: xs ++ ys)
          = piLoop (i + 1) s2 (xs ++ ys) := by
            rw [List.cons_append, piLoop, hs]
        _ = piLoop (i + 1 + xs.length) s1 ys := ih (i + 1) s2 s1 h2
        _ = piLoop (i + (x :: xs).length) s1 ys := by
            congr 1
            simp [List.length_cons]
            omega
    | brk s2 =>
      rw [piLoop, hs] at h
      simp at h
    | err =>
      rw [piLoop, hs] at h
      simp at h

/-- **C2** (corrected).  Amended claim: a non-Document request-sent record
whose initiator type is outside the closed set `\x7bscript, parser, other\x7d`
does *not* merely skip that one event — it `break`s the resolver loop
(info_extraction.py:327-329), so the bad event and *every* remaining event of
the session are discarded: the result equals the result of running on the
events up to and including the bad one, independent of what follows.  The
original "only that single event is skipped and resolution continues" is
refuted by `get_parent_info_break_loses_rest`. -/
theorem get_parent_info_break_aborts (pre : List TEntry) (bad : TEntry)
    (post : List TEntry) (s s' : PIState)
    (hpre : piLoop 0 piInit pre = some (s, false))
    (hbad : piStep pre.length s bad = .brk s') :
    get_parent_info (pre ++ bad :: post) = get_parent_info (pre ++ [bad]) := by
  simp only [get_parent_info]
  rw [piLoop_append (bad :: post) pre 0 piInit s hpre,
      piLoop_append [bad] pre 0 piInit s hpre]
  simp only [Nat.zero_add, piLoop, hbad]

/-- C2 counterexample to the original claim: after a root Document record, a
non-Document record with initiator type `"weird"` aborts the loop, so a
well-formed third record is never resolved — with the bad record present the
output stops at the root record; with it removed the third record is
resolved. -/
theorem get_parent_info_break_loses_rest :
    get_parent_info
      [⟨.requestWillBeSent "http://a.com/" "f1" "l1" "Document"
          "http://a.com/" none none ⟨"other", none, none⟩ "r1", 0⟩,
       ⟨.requestWillBeSent "http://a.com/" "f1" "l1" "Image"
          "http://img.com/x.png" none none ⟨"weird", none, none⟩ "r2", 1⟩,
       ⟨.requestWillBeSent "http://a.com/" "f1" "l1" "Image"
          "http://img2.com/y.png" none none ⟨"parser", none, none⟩ "r3", 2⟩] =
      some [⟨"http://a.com/", "Document", "", "root", 0, "f1"⟩] ∧
    get_parent_info
      [⟨.requestWillBeSent "http://a.com/" "f1" "l1" "Document"
          "http://a.com/" none none ⟨"other", none, none⟩ "r1", 0⟩,
       ⟨.requestWillBeSent "http://a.com/" "f1" "l1" "Image"
          "http://img2.com/y.png" none none ⟨"parser", none, none⟩ "r3", 2⟩] =
      some [⟨"http://a.com/", "Document", "", "root", 0, "f1"⟩,
        ⟨"http://img2.com/y.png", "Image", "http://a.com/", "parser", 2,
          "f1"⟩] :=
  ⟨rfl, rfl⟩

/-- Witness for the amended C2 at the same concrete session: with the bad
record present, the trailing record does not change the output. -/
theorem get_parent_info_break_aborts_witness :
    get_parent_info
      ([⟨.requestWillBeSent "http://a.com/" "f1" "l1" "Document"
          "http://a.com/" none none ⟨"other", none, none⟩ "r1", 0⟩] ++
        ⟨.requestWillBeSent "http://a.com/" "f1" "l1" "Image"
          "http://img.com/x.png" none none ⟨"weird", none, none⟩ "r2", 1⟩ ::
        [⟨.requestWillBeSent "http://a.com/" "f1" "l1" "Image"
          "http://img2.com/y.png" none none ⟨"parser", none, none⟩ "r3",
          2⟩]) =
    get_parent_info
      ([⟨.requestWillBeSent "http://a.com/" "f1" "l1" "Document"
          "http://a.com/" none none ⟨"other", none, none⟩ "r1", 0⟩] ++
        [⟨.requestWillBeSent "http://a.com/" "f1" "l1" "Image"
          "http://img.com/x.png" none none ⟨"weird", none, none⟩ "r2", 1⟩]) :=
  get_parent_info_break_aborts
    [⟨.requestWillBeSent "http://a.com/" "f1" "l1" "Document" "http://a.com/"
        none none ⟨"other", none, none⟩ "r1", 0⟩]
    ⟨.requestWillBeSent "http://a.com/" "f1" "l1" "Image" "http://img.com/x.png"
        none none ⟨"weird", none, none⟩ "r2", 1⟩
    [⟨.requestWillBeSent "http://a.com/" "f1" "l1" "Image"
        "http://img2.com/y.png" none none ⟨"parser", none, none⟩ "r3", 2⟩]
    ⟨[⟨"http://a.com/", "Document", "", "root", 0, "f1"⟩],
      [("http://a.com/", "http://a.com/")], [],
      [("f1", "http://a.com/")], [("l1", "http://a.com/")], [("f1", "l1")], []⟩
    ⟨[⟨"http://a.com/", "Document", "", "root", 0, "f1"⟩],
      [("http://a.com/", "http://a.com/")], [],
      [("f1", "http://a.com/")], [("l1", "http://a.com/")], [("f1", "l1")], []⟩
    rfl rfl
